import Mathlib

/-!
Shallow embedding of the task/user REST service
(`routes/tasks.js`, `routes/users.js`, `models/task.js`, `models/user.js`).

Modelling conventions:
* Mongo documents become Lean structures; the two collections become lists.
* Mongo `_id` values (ObjectIds) are strings; `mongoose.Types.ObjectId.isValid`
  is modelled as `isValidId` (24 hex characters, or any 12-character string).
* JS string truthiness (`if (s)`) is modelled as `s ≠ ""`; `x ?? d` becomes
  `Option.getD`.
* `updateOne {_id: x} u` / `updateMany {cond} u` become maps over the list that
  transform the matching documents; with unique `_id`s this agrees with Mongo.
* `$addToSet` appends iff absent; `$pull` removes every occurrence.
* Mongoose schema `lowercase` on `User.email` is modelled (`strLower`);
  the `trim` transform is not modelled — no statement here depends on
  surrounding whitespace.
* The embedding covers request payloads whose embedded ids are syntactically
  valid ObjectIds (predicates `WFTaskBody`, `WFUserBody`): on those payloads the
  mongoose driver raises no mid-handler cast errors, so each handler runs to
  completion and is a pure state transformer, as modelled here.
* Each handler returns the HTTP status it responds with, paired with the store
  after the handler ran.
-/

namespace TaskApi

structure Task where
  id : String
  name : String
  description : String
  deadline : String
  completed : Bool
  assignedUser : String
  assignedUserName : String
  dateCreated : Nat
deriving DecidableEq, Repr

structure User where
  id : String
  name : String
  email : String
  pendingTasks : List String
  dateCreated : Nat
deriving DecidableEq, Repr

structure Store where
  tasks : List Task
  users : List User
deriving DecidableEq, Repr

structure Resp where
  status : Nat
deriving DecidableEq, Repr

/-- Model of `mongoose.Types.ObjectId.isValid`: a 24-character hex string, or any
12-character string (interpretable as a 12-byte id). -/
def isHexChar (c : Char) : Bool :=
  c.isDigit || ('a' ≤ c && c ≤ 'f') || ('A' ≤ c && c ≤ 'F')

def isValidId (s : String) : Bool :=
  (s.length == 24 && s.toList.all isHexChar) || s.length == 12

/-- Model of `String(email).toLowerCase()` / the mongoose schema transform
`lowercase: true` (ASCII case folding), executable in the kernel. -/
def strLower (s : String) : String := ⟨s.data.map Char.toLower⟩

/-- JS truthiness of an optional string field of a request body:
`undefined`, `null` and `""` are falsy. -/
def bodyStrPresent : Option String → Bool
  | some s => !(s == "")
  | none => false

/-- Mongo `$addToSet {pendingTasks: tid}` on one user document. -/
def addToSetPending (tid : String) (u : User) : User :=
  if tid ∈ u.pendingTasks then u
  else { u with pendingTasks := u.pendingTasks ++ [tid] }

/-- Mongo `$pull {pendingTasks: tid}` on one user document. -/
def pullPending (tid : String) (u : User) : User :=
  { u with pendingTasks := u.pendingTasks.filter (fun x => x ≠ tid) }

/-- Mongo `User.updateOne({_id: uid}, ...)`: update the user(s) whose `_id` is
`uid` (at most one, `_id` being unique). -/
def usersUpdateOne (uid : String) (f : User → User) (s : Store) : Store :=
  { s with users := s.users.map (fun u => if u.id = uid then f u else u) }

/-- Mongo `Task.findById` / `User.findById`. -/
def findTask (tid : String) (s : Store) : Option Task :=
  s.tasks.find? (fun t => t.id == tid)

def findUser (uid : String) (s : Store) : Option User :=
  s.users.find? (fun u => u.id == uid)

/-- Mongoose `doc.save()` on a task document: replace the stored document with the
same `_id`. -/
def saveTask (t : Task) (s : Store) : Store :=
  { s with tasks := s.tasks.map (fun x => if x.id = t.id then t else x) }

/-- Mongoose `doc.save()` on a user document. -/
def saveUser (u : User) (s : Store) : Store :=
  { s with users := s.users.map (fun x => if x.id = u.id then u else x) }

/-- The function `syncUserPendingForTask` (routes/tasks.js lines 26–47): the task→user
consistency synchronizer, run after task create/replace. `prevAssignedUserId`
is `null` on create (`none`) and the previous `assignedUser` string on
replace. -/
def syncUserPendingForTask (task : Task) (prevAssignedUserId : Option String)
    (s : Store) : Store :=
  -- if (!task.completed && task.assignedUser) addToSet
  let s1 :=
    if task.completed = false ∧ task.assignedUser ≠ "" then
      usersUpdateOne task.assignedUser (addToSetPending task.id) s
    else s
  -- if (prevAssignedUserId && String(prevAssignedUserId) !== String(task.assignedUser))
  -- pull from prev; `null` and `""` are both falsy, rendered as `getD ""`
  let prev := prevAssignedUserId.getD ""
  let s2 :=
    if prev ≠ "" ∧ prev ≠ task.assignedUser then
      usersUpdateOne prev (pullPending task.id) s1
    else s1
  -- if (task.completed || !task.assignedUser) pull from current (if any)
  if task.completed = true ∨ task.assignedUser = "" then
    if task.assignedUser ≠ "" then
      usersUpdateOne task.assignedUser (pullPending task.id) s2
    else s2
  else s2

/-- Request body of POST/PUT `/tasks`; absent JSON fields are `none`. -/
structure TaskBody where
  name : Option String
  description : Option String
  deadline : Option String
  completed : Option Bool
  assignedUser : Option String
  assignedUserName : Option String
deriving DecidableEq, Repr

/-- Request body of POST/PUT `/users`. `pendingTasks` is `some l` when the
field is an array (`Array.isArray`), `none` otherwise. -/
structure UserBody where
  name : Option String
  email : Option String
  pendingTasks : Option (List String)
deriving DecidableEq, Repr

/-- The document `Task.create` builds in POST `/api/tasks`
(routes/tasks.js lines 94–101). -/
def postTaskDoc (tid : String) (now : Nat) (b : TaskBody) : Task :=
  { id := tid
    name := b.name.getD ""
    description := b.description.getD ""
    deadline := b.deadline.getD ""
    completed := b.completed.getD false
    assignedUser := b.assignedUser.getD ""
    assignedUserName :=
      b.assignedUserName.getD
        (if bodyStrPresent b.assignedUser then "" else "unassigned")
    dateCreated := now }

/-- The `assignedUserName` fixup of POST `/api/tasks` (routes/tasks.js lines
103–110): if an assignee was given, fall back to that user's name and re-save
when it differs. -/
def postTaskFix (t : Task) (s1 : Store) : Task × Store :=
  if t.assignedUser ≠ "" then
    let userName :=
      match findUser t.assignedUser s1 with
      | some u => u.name
      | none => if t.assignedUserName ≠ "" then t.assignedUserName
                else "unassigned"
    if t.assignedUserName ≠ userName then
      let t2 := { t with assignedUserName := userName }
      (t2, saveTask t2 s1)
    else (t, s1)
  else (t, s1)

/-- POST `/api/tasks` (routes/tasks.js lines 81–119). `tid` is the ObjectId
the store generates for the new document, `now` its creation timestamp. -/
def postTask (tid : String) (now : Nat) (b : TaskBody) (s : Store) :
    Resp × Store :=
  if !(bodyStrPresent b.name && bodyStrPresent b.deadline) then (⟨400⟩, s)
  else
    let t := postTaskDoc tid now b
    let ts2 := postTaskFix t { s with tasks := s.tasks ++ [t] }
    (⟨201⟩, syncUserPendingForTask ts2.1 none ts2.2)

/-- GET `/api/tasks/:id` (routes/tasks.js lines 122–137); the `select`
projection only shapes the response body, not the store, and is not
modelled. -/
def getTask (tid : String) (s : Store) : Resp :=
  if !isValidId tid then ⟨404⟩
  else
    match findTask tid s with
    | none => ⟨404⟩
    | some _ => ⟨200⟩

/-- The replacement document PUT `/api/tasks/:id` builds from the stored
document and the body (routes/tasks.js lines 159–172): all fields are set
explicitly; `assignedUserName` falls back to the assignee's current name (or
"unassigned") when the body does not give one. -/
def putTaskDoc (before : Task) (b : TaskBody) (s : Store) : Task :=
  let au := b.assignedUser.getD ""
  { before with
    name := b.name.getD ""
    description := b.description.getD ""
    deadline := b.deadline.getD ""
    completed := b.completed.getD false
    assignedUser := au
    assignedUserName :=
      if au ≠ "" then
        match findUser au s with
        | some u => b.assignedUserName.getD u.name
        | none => b.assignedUserName.getD "unassigned"
      else "unassigned" }

/-- PUT `/api/tasks/:id` (routes/tasks.js lines 140–182). -/
def putTask (tid : String) (b : TaskBody) (s : Store) : Resp × Store :=
  if !isValidId tid then (⟨404⟩, s)
  else if !(bodyStrPresent b.name && bodyStrPresent b.deadline) then (⟨400⟩, s)
  else
    match findTask tid s with
    | none => (⟨404⟩, s)
    | some before =>
      let t := putTaskDoc before b s
      (⟨200⟩,
       syncUserPendingForTask t (some before.assignedUser) (saveTask t s))

/-- DELETE `/api/tasks/:id` (routes/tasks.js lines 185–205). -/
def deleteTask (tid : String) (s : Store) : Resp × Store :=
  if !isValidId tid then (⟨404⟩, s)
  else
    match findTask tid s with
    | none => (⟨404⟩, s)
    | some task =>
      let s1 :=
        if task.assignedUser ≠ "" then
          usersUpdateOne task.assignedUser (pullPending task.id) s
        else s
      (⟨204⟩, { s1 with tasks := s1.tasks.filter (fun t => t.id ≠ tid) })

/-- Mongo `$set {assignedUser: '', assignedUserName: 'unassigned'}` on one task. -/
def clearTask (t : Task) : Task :=
  { t with assignedUser := "", assignedUserName := "unassigned" }

/-- Mongo `Task.updateMany({_id: {$in: L}, completed: false}, {$set: {assignedUser,
assignedUserName}})` — the set-assignment pass shared by POST and PUT
`/api/users`. -/
def userSetPass (uid uname : String) (L : List String) (s : Store) : Store :=
  { s with
    tasks := s.tasks.map (fun t =>
      if t.id ∈ L ∧ t.completed = false then
        { t with assignedUser := uid, assignedUserName := uname }
      else t) }

/-- The drop pass of PUT `/api/users/:id` (routes/users.js lines 133–147):
tasks currently assigned to the user, not completed and absent from the new
list are unassigned. -/
def userDropPass (uid : String) (L : List String) (s : Store) : Store :=
  let dropIds :=
    ((s.tasks.filter (fun t =>
        t.assignedUser = uid ∧ t.completed = false)).map
      (fun t => t.id)).filter (fun tid => tid ∉ L)
  if dropIds ≠ [] then
    { s with
      tasks := s.tasks.map (fun t =>
        if t.id ∈ dropIds then clearTask t else t) }
  else s

/-- The document `User.create` / the PUT replacement builds
(routes/users.js lines 66–70): the schema lowercases the email. -/
def mkUserDoc (uid : String) (now : Nat) (b : UserBody) : User :=
  { id := uid
    name := b.name.getD ""
    email := strLower (b.email.getD "")
    pendingTasks := b.pendingTasks.getD []
    dateCreated := now }

/-- POST `/api/users` (routes/users.js lines 58–85). `uid` is the generated
ObjectId, `now` the creation timestamp. -/
def postUser (uid : String) (now : Nat) (b : UserBody) (s : Store) :
    Resp × Store :=
  if !(bodyStrPresent b.name && bodyStrPresent b.email) then (⟨400⟩, s)
  else
    if (s.users.find? (fun u =>
        u.email == strLower (b.email.getD ""))).isSome then (⟨400⟩, s)
    else
      let user := mkUserDoc uid now b
      let s1 : Store := { s with users := s.users ++ [user] }
      let s2 :=
        if user.pendingTasks ≠ [] then
          userSetPass uid user.name user.pendingTasks s1
        else s1
      (⟨201⟩, s2)

/-- GET `/api/users/:id` (routes/users.js lines 88–103). -/
def getUser (uid : String) (s : Store) : Resp :=
  if !isValidId uid then ⟨404⟩
  else
    match findUser uid s with
    | none => ⟨404⟩
    | some _ => ⟨200⟩

/-- PUT `/api/users/:id` (routes/users.js lines 106–154). -/
def putUser (uid : String) (b : UserBody) (s : Store) : Resp × Store :=
  if !isValidId uid then (⟨404⟩, s)
  else if !(bodyStrPresent b.name && bodyStrPresent b.email) then (⟨400⟩, s)
  else
    if (s.users.find? (fun u =>
        u.email == strLower (b.email.getD "") && u.id != uid)).isSome
    then (⟨400⟩, s)
    else
      match findUser uid s with
      | none => (⟨404⟩, s)
      | some before =>
        let L := b.pendingTasks.getD []
        let user : User :=
          { before with
            name := b.name.getD ""
            email := strLower (b.email.getD "")
            pendingTasks := L }
        -- save, then set-assignment pass, then the drop pass computed on
        -- the store after the set pass
        (⟨200⟩, userDropPass uid L (userSetPass uid user.name L (saveUser user s)))

/-- DELETE `/api/users/:id` (routes/users.js lines 157–175). -/
def deleteUser (uid : String) (s : Store) : Resp × Store :=
  if !isValidId uid then (⟨404⟩, s)
  else
    match findUser uid s with
    | none => (⟨404⟩, s)
    | some _ =>
      let s1 : Store :=
        { s with
          tasks := s.tasks.map (fun t =>
            if t.assignedUser = uid ∧ t.completed = false then clearTask t
            else t) }
      (⟨204⟩, { s1 with users := s1.users.filter (fun u => u.id ≠ uid) })

/-- The default task-list ordering `sort({dateCreated: -1})`: newest first. -/
def dateDescOrder (a b : Task) : Prop := b.dateCreated ≤ a.dateCreated

instance : DecidableRel dateDescOrder := fun a b =>
  inferInstanceAs (Decidable (b.dateCreated ≤ a.dateCreated))

instance : IsTotal Task dateDescOrder :=
  ⟨fun a b => Nat.le_total b.dateCreated a.dateCreated⟩

instance : IsTrans Task dateDescOrder :=
  ⟨fun _ _ _ h1 h2 => Nat.le_trans h2 h1⟩

/-- GET `/api/tasks` (routes/tasks.js lines 50–78), non-count mode, with the
`where` filter abstracted as a predicate and an explicit client `sort`
abstracted as a list transformer. When no `limit` parameter is given the
handler uses 100; Mongo treats `limit(0)` as "no limit". -/
def tasksListQuery (wherePred : Task → Bool)
    (sortParam : Option (List Task → List Task)) (skip : Nat)
    (limitParam : Option Nat) (s : Store) : List Task :=
  let q0 := s.tasks.filter wherePred
  let q1 :=
    match sortParam with
    | some f => f q0
    | none => List.insertionSort dateDescOrder q0  -- default: newest first
  let q2 := if skip ≠ 0 then q1.drop skip else q1
  let limit := limitParam.getD 100
  if limit = 0 then q2 else q2.take limit

/-- GET `/api/users` (routes/users.js lines 28–55), non-count mode: no
default sort, and no limit at all when the parameter is absent. -/
def usersListQuery (wherePred : User → Bool)
    (sortParam : Option (List User → List User)) (skip : Nat)
    (limitParam : Option Nat) (s : Store) : List User :=
  let q0 := s.users.filter wherePred
  let q1 :=
    match sortParam with
    | some f => f q0
    | none => q0
  let q2 := if skip ≠ 0 then q1.drop skip else q1
  match limitParam with
  | none => q2
  | some 0 => q2
  | some l => q2.take l

/-! ### Basic lemmas about the primitive store operations -/

/-- The synchronizer acts on each user document independently; `syncUser` is
its per-document action (each `updateOne` condition tests the document's
immutable `_id`). -/
def syncUser (task : Task) (prevAssignedUserId : Option String) (u : User) :
    User :=
  let prev := prevAssignedUserId.getD ""
  let u1 :=
    if (task.completed = false ∧ task.assignedUser ≠ "") ∧
        u.id = task.assignedUser
    then addToSetPending task.id u else u
  let u2 :=
    if (prev ≠ "" ∧ prev ≠ task.assignedUser) ∧ u.id = prev
    then pullPending task.id u1 else u1
  if ((task.completed = true ∨ task.assignedUser = "") ∧
      task.assignedUser ≠ "") ∧ u.id = task.assignedUser
  then pullPending task.id u2 else u2

theorem addToSetPending_id (tid : String) (u : User) :
    (addToSetPending tid u).id = u.id := by
  unfold addToSetPending; split <;> rfl

theorem pullPending_id (tid : String) (u : User) :
    (pullPending tid u).id = u.id := rfl

theorem addToSetPending_name (tid : String) (u : User) :
    (addToSetPending tid u).name = u.name := by
  unfold addToSetPending; split <;> rfl

theorem mem_addToSetPending (tid x : String) (u : User) :
    x ∈ (addToSetPending tid u).pendingTasks ↔
      x ∈ u.pendingTasks ∨ x = tid := by
  unfold addToSetPending
  split
  · constructor
    · exact Or.inl
    · rintro (h | rfl)
      · exact h
      · assumption
  · simp [List.mem_append]

theorem mem_pullPending (tid x : String) (u : User) :
    x ∈ (pullPending tid u).pendingTasks ↔ x ∈ u.pendingTasks ∧ x ≠ tid := by
  unfold pullPending
  simp [List.mem_filter]

theorem stage_eq (c : Prop) [Decidable c] (uid : String) (g : User → User)
    (s : Store) :
    (if c then usersUpdateOne uid g s else s) =
      { s with users := s.users.map (fun u => if c ∧ u.id = uid then g u else u) } := by
  unfold usersUpdateOne
  split
  · next h =>
    refine congrArg (fun l => { s with users := l }) ?_
    refine List.map_congr_left fun u _ => ?_
    by_cases hu : u.id = uid <;> simp [h, hu]
  · next h => simp [h]

theorem sync_eq_map (task : Task) (prev : Option String) (s : Store) :
    syncUserPendingForTask task prev s =
      { s with users := s.users.map (syncUser task prev) } := by
  simp only [syncUserPendingForTask, syncUser, ← ite_and]
  rw [stage_eq (task.completed = false ∧ task.assignedUser ≠ "")
        task.assignedUser (addToSetPending task.id) s]
  rw [stage_eq (prev.getD "" ≠ "" ∧ prev.getD "" ≠ task.assignedUser)
        (prev.getD "") (pullPending task.id) _]
  rw [stage_eq ((task.completed = true ∨ task.assignedUser = "") ∧
        task.assignedUser ≠ "") task.assignedUser (pullPending task.id) _]
  simp only [List.map_map]
  refine congrArg (fun l => { s with users := l }) ?_
  refine List.map_congr_left fun u _ => ?_
  simp only [Function.comp]
  by_cases h1 : (task.completed = false ∧ task.assignedUser ≠ "") ∧
      u.id = task.assignedUser
  · simp only [if_pos h1, addToSetPending_id]
    by_cases h2 : (prev.getD "" ≠ "" ∧ prev.getD "" ≠ task.assignedUser) ∧
        u.id = prev.getD ""
    · exact absurd (h1.2.symm.trans h2.2) (Ne.symm h2.1.2)
    · have h3 : ¬(((task.completed = true ∨ task.assignedUser = "") ∧
          task.assignedUser ≠ "") ∧ u.id = task.assignedUser) := by
        rintro ⟨⟨hor, ha⟩, _⟩
        rcases hor with hc | hc
        · rw [h1.1.1] at hc; cases hc
        · exact ha hc
      simp only [if_neg h2, if_neg h3, addToSetPending_id]
      simp only [syncUser, if_pos h1, if_neg h2, if_neg h3]
  · simp only [if_neg h1]
    by_cases h2 : (prev.getD "" ≠ "" ∧ prev.getD "" ≠ task.assignedUser) ∧
        u.id = prev.getD ""
    · simp only [if_pos h2, pullPending_id]
      have h3 : ¬(((task.completed = true ∨ task.assignedUser = "") ∧
          task.assignedUser ≠ "") ∧ u.id = task.assignedUser) := by
        rintro ⟨⟨_, ha⟩, hau⟩
        exact h2.1.2 (h2.2.symm.trans hau)
      simp only [if_neg h3]
      simp only [syncUser, if_neg h1, if_pos h2, if_neg h3]
    · simp only [if_neg h2]
      by_cases h3 : ((task.completed = true ∨ task.assignedUser = "") ∧
          task.assignedUser ≠ "") ∧ u.id = task.assignedUser
      · simp only [if_pos h3]
        simp only [syncUser, if_neg h1, if_neg h2, if_pos h3]
      · simp only [if_neg h3]
        simp only [syncUser, if_neg h1, if_neg h2, if_neg h3]

theorem pullPending_name (tid : String) (u : User) :
    (pullPending tid u).name = u.name := rfl

theorem addToSetPending_email (tid : String) (u : User) :
    (addToSetPending tid u).email = u.email := by
  unfold addToSetPending; split <;> rfl

theorem pullPending_email (tid : String) (u : User) :
    (pullPending tid u).email = u.email := rfl

theorem syncUser_id (task : Task) (p : Option String) (u : User) :
    (syncUser task p u).id = u.id := by
  unfold syncUser
  split_ifs <;>
    simp [apply_ite User.id, addToSetPending_id, pullPending_id]

theorem syncUser_name (task : Task) (p : Option String) (u : User) :
    (syncUser task p u).name = u.name := by
  unfold syncUser
  split_ifs <;>
    simp [apply_ite User.name, addToSetPending_name, pullPending_name]

theorem syncUser_email (task : Task) (p : Option String) (u : User) :
    (syncUser task p u).email = u.email := by
  unfold syncUser
  split_ifs <;>
    simp [apply_ite User.email, addToSetPending_email, pullPending_email]

/-- If rule 1's condition holds for `u`, rules 2 and 3 cannot, and the
synchronizer's effect on `u` is exactly the `$addToSet`. -/
theorem syncUser_eq_add (task : Task) (p : Option String) (u : User)
    (h1 : (task.completed = false ∧ task.assignedUser ≠ "") ∧
      u.id = task.assignedUser) :
    syncUser task p u = addToSetPending task.id u := by
  simp only [syncUser]
  have h2 : ¬((p.getD "" ≠ "" ∧ p.getD "" ≠ task.assignedUser) ∧
      u.id = p.getD "") := by
    rintro ⟨⟨_, hqa⟩, hq⟩
    exact hqa (hq.symm.trans h1.2)
  have h3 : ¬(((task.completed = true ∨ task.assignedUser = "") ∧
      task.assignedUser ≠ "") ∧ u.id = task.assignedUser) := by
    rintro ⟨⟨hor, ha⟩, _⟩
    rcases hor with hc | hc
    · rw [h1.1.1] at hc; cases hc
    · exact ha hc
  rw [if_pos h1, if_neg h2, if_neg h3]

/-- If rule 2's condition holds for `u` (it is the previous assignee and the
assignment changed), rules 1 and 3 cannot, and the effect is the `$pull`. -/
theorem syncUser_eq_pull_prev (task : Task) (p : Option String) (u : User)
    (h2 : (p.getD "" ≠ "" ∧ p.getD "" ≠ task.assignedUser) ∧
      u.id = p.getD "") :
    syncUser task p u = pullPending task.id u := by
  simp only [syncUser]
  have h1 : ¬((task.completed = false ∧ task.assignedUser ≠ "") ∧
      u.id = task.assignedUser) := by
    rintro ⟨_, hau⟩
    exact h2.1.2 (h2.2.symm.trans hau)
  have h3 : ¬(((task.completed = true ∨ task.assignedUser = "") ∧
      task.assignedUser ≠ "") ∧ u.id = task.assignedUser) := by
    rintro ⟨_, hau⟩
    exact h2.1.2 (h2.2.symm.trans hau)
  rw [if_neg h1, if_pos h2, if_neg h3]

/-- If rule 3's condition holds for `u` (current assignee of a task that is
completed), rules 1 and 2 cannot, and the effect is the `$pull`. -/
theorem syncUser_eq_pull_cur (task : Task) (p : Option String) (u : User)
    (h3 : ((task.completed = true ∨ task.assignedUser = "") ∧
      task.assignedUser ≠ "") ∧ u.id = task.assignedUser) :
    syncUser task p u = pullPending task.id u := by
  simp only [syncUser]
  have h1 : ¬((task.completed = false ∧ task.assignedUser ≠ "") ∧
      u.id = task.assignedUser) := by
    rintro ⟨⟨hc, _⟩, _⟩
    rcases h3.1.1 with hc' | hc'
    · rw [hc] at hc'; cases hc'
    · exact h3.1.2 hc'
  have h2 : ¬((p.getD "" ≠ "" ∧ p.getD "" ≠ task.assignedUser) ∧
      u.id = p.getD "") := by
    rintro ⟨⟨_, hqa⟩, hq⟩
    exact hqa (hq.symm.trans h3.2)
  rw [if_neg h1, if_neg h2, if_pos h3]

theorem syncUser_eq_self (task : Task) (p : Option String) (u : User)
    (h1 : ¬((task.completed = false ∧ task.assignedUser ≠ "") ∧
      u.id = task.assignedUser))
    (h2 : ¬((p.getD "" ≠ "" ∧ p.getD "" ≠ task.assignedUser) ∧
      u.id = p.getD ""))
    (h3 : ¬(((task.completed = true ∨ task.assignedUser = "") ∧
      task.assignedUser ≠ "") ∧ u.id = task.assignedUser)) :
    syncUser task p u = u := by
  simp only [syncUser]
  rw [if_neg h1, if_neg h2, if_neg h3]

/-- Each user document is, in one synchronizer run, either untouched, or
has the task's id `$addToSet`-ed, or `$pull`-ed. -/
theorem syncUser_cases (task : Task) (p : Option String) (u : User) :
    syncUser task p u = u ∨
      syncUser task p u = addToSetPending task.id u ∨
      syncUser task p u = pullPending task.id u := by
  by_cases h1 : (task.completed = false ∧ task.assignedUser ≠ "") ∧
      u.id = task.assignedUser
  · exact Or.inr (Or.inl (syncUser_eq_add task p u h1))
  · by_cases h2 : (p.getD "" ≠ "" ∧ p.getD "" ≠ task.assignedUser) ∧
        u.id = p.getD ""
    · exact Or.inr (Or.inr (syncUser_eq_pull_prev task p u h2))
    · by_cases h3 : ((task.completed = true ∨ task.assignedUser = "") ∧
          task.assignedUser ≠ "") ∧ u.id = task.assignedUser
      · exact Or.inr (Or.inr (syncUser_eq_pull_cur task p u h3))
      · exact Or.inl (syncUser_eq_self task p u h1 h2 h3)

/-- The synchronizer only ever inserts or removes the synced task's own id:
membership of any other id is untouched, for every user. -/
theorem mem_syncUser_of_ne (task : Task) (p : Option String) (u : User)
    (x : String) (hx : x ≠ task.id) :
    x ∈ (syncUser task p u).pendingTasks ↔ x ∈ u.pendingTasks := by
  rcases syncUser_cases task p u with h | h | h <;> rw [h]
  · simp [mem_addToSetPending, hx]
  · simp [mem_pullPending, hx]

/-- Rule 1: a pending task with a non-empty assignee is added to that
assignee's list (and the other two rules cannot remove it again). -/
theorem mem_syncUser_assignee (task : Task) (p : Option String) (u : User)
    (hc : task.completed = false) (ha : task.assignedUser ≠ "")
    (hu : u.id = task.assignedUser) :
    task.id ∈ (syncUser task p u).pendingTasks := by
  rw [syncUser_eq_add task p u ⟨⟨hc, ha⟩, hu⟩]
  exact (mem_addToSetPending _ _ _).mpr (Or.inr rfl)

/-- Rule 2: the previous assignee (non-empty, different from the current
one) loses the task's id. -/
theorem not_mem_syncUser_prevUser (task : Task) (p : Option String) (u : User)
    (hq : p.getD "" ≠ "") (hqa : p.getD "" ≠ task.assignedUser)
    (hu : u.id = p.getD "") :
    task.id ∉ (syncUser task p u).pendingTasks := by
  rw [syncUser_eq_pull_prev task p u ⟨⟨hq, hqa⟩, hu⟩]
  intro hmem
  exact ((mem_pullPending _ _ _).mp hmem).2 rfl

/-- Rule 3: a completed task with a non-empty assignee is removed from that
assignee's list. -/
theorem not_mem_syncUser_completed (task : Task) (p : Option String) (u : User)
    (hc : task.completed = true) (ha : task.assignedUser ≠ "")
    (hu : u.id = task.assignedUser) :
    task.id ∉ (syncUser task p u).pendingTasks := by
  rw [syncUser_eq_pull_cur task p u ⟨⟨Or.inl hc, ha⟩, hu⟩]
  intro hmem
  exact ((mem_pullPending _ _ _).mp hmem).2 rfl

/-- A user that is neither the current nor the previous assignee is not
touched at all. -/
theorem syncUser_untouched (task : Task) (p : Option String) (u : User)
    (h1 : u.id ≠ task.assignedUser) (h2 : u.id ≠ p.getD "") :
    syncUser task p u = u := by
  simp only [syncUser]
  rw [if_neg (by rintro ⟨_, h⟩; exact h1 h),
      if_neg (by rintro ⟨_, h⟩; exact h2 h),
      if_neg (by rintro ⟨_, h⟩; exact h1 h)]

/-- Mongo `$addToSet` is idempotent at the list level: with at most one prior
occurrence, the assignee ends up with exactly one occurrence. -/
theorem count_syncUser_assignee (task : Task) (p : Option String) (u : User)
    (hc : task.completed = false) (ha : task.assignedUser ≠ "")
    (hu : u.id = task.assignedUser)
    (hcount : u.pendingTasks.count task.id ≤ 1) :
    (syncUser task p u).pendingTasks.count task.id = 1 := by
  rw [syncUser_eq_add task p u ⟨⟨hc, ha⟩, hu⟩]
  unfold addToSetPending
  split
  · next hmem =>
    have h1le : 1 ≤ u.pendingTasks.count task.id :=
      List.count_pos_iff.mpr hmem
    exact Nat.le_antisymm hcount h1le
  · next hmem =>
    rw [List.count_append]
    rw [List.count_eq_zero.mpr hmem, List.count_singleton]
    simp

theorem addToSetPending_of_mem (tid : String) (u : User)
    (h : tid ∈ u.pendingTasks) : addToSetPending tid u = u := by
  unfold addToSetPending; rw [if_pos h]

theorem addToSetPending_idem (tid : String) (u : User) :
    addToSetPending tid (addToSetPending tid u) = addToSetPending tid u :=
  addToSetPending_of_mem _ _ ((mem_addToSetPending _ _ _).mpr (Or.inr rfl))

theorem pullPending_idem (tid : String) (u : User) :
    pullPending tid (pullPending tid u) = pullPending tid u := by
  unfold pullPending
  simp [List.filter_filter]

/-- One synchronizer run per user is idempotent: running it again changes
nothing (conditions only inspect the task and the immutable `_id`). -/
theorem syncUser_idem (task : Task) (p : Option String) (u : User) :
    syncUser task p (syncUser task p u) = syncUser task p u := by
  by_cases h1 : (task.completed = false ∧ task.assignedUser ≠ "") ∧
      u.id = task.assignedUser
  · rw [syncUser_eq_add task p u h1]
    rw [syncUser_eq_add task p _
      ⟨h1.1, by rw [addToSetPending_id]; exact h1.2⟩]
    exact addToSetPending_idem _ _
  · by_cases h2 : (p.getD "" ≠ "" ∧ p.getD "" ≠ task.assignedUser) ∧
        u.id = p.getD ""
    · rw [syncUser_eq_pull_prev task p u h2]
      rw [syncUser_eq_pull_prev task p _
        ⟨h2.1, by rw [pullPending_id]; exact h2.2⟩]
      exact pullPending_idem _ _
    · by_cases h3 : ((task.completed = true ∨ task.assignedUser = "") ∧
          task.assignedUser ≠ "") ∧ u.id = task.assignedUser
      · rw [syncUser_eq_pull_cur task p u h3]
        rw [syncUser_eq_pull_cur task p _
          ⟨h3.1, by rw [pullPending_id]; exact h3.2⟩]
        exact pullPending_idem _ _
      · rw [syncUser_eq_self task p u h1 h2 h3,
            syncUser_eq_self task p u h1 h2 h3]

theorem sync_tasks_unchanged (task : Task) (p : Option String) (s : Store) :
    (syncUserPendingForTask task p s).tasks = s.tasks := by
  rw [sync_eq_map]

theorem sync_users (task : Task) (p : Option String) (s : Store) :
    (syncUserPendingForTask task p s).users =
      s.users.map (syncUser task p) := by
  rw [sync_eq_map]

/-- Running the whole synchronizer twice with the same inputs equals running
it once. -/
theorem sync_idem (task : Task) (p : Option String) (s : Store) :
    syncUserPendingForTask task p (syncUserPendingForTask task p s) =
      syncUserPendingForTask task p s := by
  rw [sync_eq_map task p s, sync_eq_map]
  show ({ tasks := s.tasks,
          users := (s.users.map (syncUser task p)).map (syncUser task p) } :
        Store) =
      { tasks := s.tasks, users := s.users.map (syncUser task p) }
  rw [List.map_map]
  refine congrArg (fun l => ({ tasks := s.tasks, users := l } : Store)) ?_
  exact List.map_congr_left fun u _ => syncUser_idem task p u

theorem findTask_some (tid : String) (s : Store) (t : Task)
    (h : findTask tid s = some t) : t ∈ s.tasks ∧ t.id = tid := by
  unfold findTask at h
  refine ⟨List.mem_of_find?_eq_some h, ?_⟩
  have := List.find?_some h
  simpa using this

theorem findUser_some (uid : String) (s : Store) (u : User)
    (h : findUser uid s = some u) : u ∈ s.users ∧ u.id = uid := by
  unfold findUser at h
  refine ⟨List.mem_of_find?_eq_some h, ?_⟩
  have := List.find?_some h
  simpa using this

/-- Successful POST /tasks: task appended, name fixup, then the
synchronizer with no previous assignee. -/
theorem postTask_success (tid : String) (now : Nat) (b : TaskBody) (s : Store)
    (hname : bodyStrPresent b.name = true)
    (hdl : bodyStrPresent b.deadline = true) :
    postTask tid now b s =
      (⟨201⟩,
       syncUserPendingForTask
         (postTaskFix (postTaskDoc tid now b)
           { s with tasks := s.tasks ++ [postTaskDoc tid now b] }).1
         none
         (postTaskFix (postTaskDoc tid now b)
           { s with tasks := s.tasks ++ [postTaskDoc tid now b] }).2) := by
  unfold postTask
  simp [hname, hdl]

/-- Successful PUT /tasks/:id: replacement document saved, then the
synchronizer with the previous assignee. -/
theorem putTask_success (tid : String) (b : TaskBody) (s : Store)
    (before : Task) (hvalid : isValidId tid = true)
    (hname : bodyStrPresent b.name = true)
    (hdl : bodyStrPresent b.deadline = true)
    (hfind : findTask tid s = some before) :
    putTask tid b s =
      (⟨200⟩,
       syncUserPendingForTask (putTaskDoc before b s)
         (some before.assignedUser) (saveTask (putTaskDoc before b s) s)) := by
  unfold putTask
  rw [hvalid, hfind]
  simp [hname, hdl]

/-- Successful DELETE /tasks/:id. -/
theorem deleteTask_success (tid : String) (s : Store) (task : Task)
    (hvalid : isValidId tid = true)
    (hfind : findTask tid s = some task) :
    deleteTask tid s =
      (⟨204⟩,
       { tasks :=
           s.tasks.filter (fun t => t.id ≠ tid)
         users :=
           (if task.assignedUser ≠ "" then
             usersUpdateOne task.assignedUser (pullPending task.id) s
           else s).users }) := by
  unfold deleteTask
  rw [hvalid, hfind]
  simp only [Bool.not_true, Bool.false_eq_true, if_false]
  split <;> rfl

/-- Successful POST /users. -/
theorem postUser_success (uid : String) (now : Nat) (b : UserBody) (s : Store)
    (hname : bodyStrPresent b.name = true)
    (hemail : bodyStrPresent b.email = true)
    (hdup : (s.users.find? (fun u =>
        u.email == strLower (b.email.getD ""))).isSome = false) :
    postUser uid now b s =
      (⟨201⟩,
       if (mkUserDoc uid now b).pendingTasks ≠ [] then
         userSetPass uid (mkUserDoc uid now b).name
           (mkUserDoc uid now b).pendingTasks
           { s with users := s.users ++ [mkUserDoc uid now b] }
       else { s with users := s.users ++ [mkUserDoc uid now b] }) := by
  unfold postUser
  simp [hname, hemail, hdup]

/-- Successful PUT /users/:id. -/
theorem putUser_success (uid : String) (b : UserBody) (s : Store)
    (before : User) (hvalid : isValidId uid = true)
    (hname : bodyStrPresent b.name = true)
    (hemail : bodyStrPresent b.email = true)
    (hdup : (s.users.find? (fun u =>
        u.email == strLower (b.email.getD "") && u.id != uid)).isSome = false)
    (hfind : findUser uid s = some before) :
    putUser uid b s =
      (⟨200⟩,
       userDropPass uid (b.pendingTasks.getD [])
         (userSetPass uid (b.name.getD "") (b.pendingTasks.getD [])
           (saveUser
             { before with
               name := b.name.getD ""
               email := strLower (b.email.getD "")
               pendingTasks := b.pendingTasks.getD [] } s))) := by
  unfold putUser
  rw [hvalid, hfind]
  simp [hname, hemail, hdup]

/-- Successful DELETE /users/:id. -/
theorem deleteUser_success (uid : String) (s : Store) (u0 : User)
    (hvalid : isValidId uid = true)
    (hfind : findUser uid s = some u0) :
    deleteUser uid s =
      (⟨204⟩,
       { tasks := s.tasks.map (fun t =>
           if t.assignedUser = uid ∧ t.completed = false then clearTask t
           else t)
         users := s.users.filter (fun u => u.id ≠ uid) }) := by
  unfold deleteUser
  rw [hvalid, hfind]
  rfl

theorem postTaskFix_fst_id (t : Task) (s1 : Store) :
    (postTaskFix t s1).1.id = t.id := by
  simp only [postTaskFix]
  split_ifs <;> rfl

theorem postTaskFix_fst_completed (t : Task) (s1 : Store) :
    (postTaskFix t s1).1.completed = t.completed := by
  simp only [postTaskFix]
  split_ifs <;> rfl

theorem postTaskFix_fst_assignedUser (t : Task) (s1 : Store) :
    (postTaskFix t s1).1.assignedUser = t.assignedUser := by
  simp only [postTaskFix]
  split_ifs <;> rfl

theorem postTaskFix_snd_users (t : Task) (s1 : Store) :
    (postTaskFix t s1).2.users = s1.users := by
  simp only [postTaskFix]
  split_ifs <;> rfl

theorem saveTask_users (t : Task) (s : Store) :
    (saveTask t s).users = s.users := rfl

theorem saveUser_tasks (u : User) (s : Store) :
    (saveUser u s).tasks = s.tasks := rfl

theorem putTaskDoc_id (before : Task) (b : TaskBody) (s : Store) :
    (putTaskDoc before b s).id = before.id := rfl

theorem putTaskDoc_completed (before : Task) (b : TaskBody) (s : Store) :
    (putTaskDoc before b s).completed = b.completed.getD false := rfl

theorem putTaskDoc_assignedUser (before : Task) (b : TaskBody) (s : Store) :
    (putTaskDoc before b s).assignedUser = b.assignedUser.getD "" := rfl

theorem userSetPass_users (uid n : String) (L : List String) (s : Store) :
    (userSetPass uid n L s).users = s.users := rfl

theorem userSetPass_tasks (uid n : String) (L : List String) (s : Store) :
    (userSetPass uid n L s).tasks =
      s.tasks.map (fun t =>
        if t.id ∈ L ∧ t.completed = false then
          { t with assignedUser := uid, assignedUserName := n }
        else t) := rfl

theorem userDropPass_users (uid : String) (L : List String) (s : Store) :
    (userDropPass uid L s).users = s.users := by
  simp only [userDropPass]
  split <;> rfl

/-- The ids the drop pass of PUT /users/:id removes: ids of tasks assigned
to the user, not completed, and absent from the new list. -/
def dropIdsOf (uid : String) (L : List String) (s : Store) : List String :=
  ((s.tasks.filter (fun t =>
      t.assignedUser = uid ∧ t.completed = false)).map
    (fun t => t.id)).filter (fun tid => tid ∉ L)

theorem userDropPass_tasks (uid : String) (L : List String) (s : Store) :
    (userDropPass uid L s).tasks =
      s.tasks.map (fun t =>
        if t.id ∈ dropIdsOf uid L s then clearTask t else t) := by
  have key : userDropPass uid L s =
      (if dropIdsOf uid L s ≠ [] then
        { s with
          tasks := s.tasks.map (fun t =>
            if t.id ∈ dropIdsOf uid L s then clearTask t else t) }
      else s) := rfl
  rw [key]
  split
  · rfl
  · next h =>
    rw [not_not] at h
    simp [h]

theorem mem_dropIdsOf (uid : String) (L : List String) (s : Store)
    (x : String) :
    x ∈ dropIdsOf uid L s ↔
      (∃ t ∈ s.tasks,
        t.id = x ∧ t.assignedUser = uid ∧ t.completed = false) ∧ x ∉ L := by
  unfold dropIdsOf
  simp only [List.mem_filter, List.mem_map, decide_eq_true_eq]
  constructor
  · rintro ⟨⟨t, ⟨ht, hcond⟩, rfl⟩, hnl⟩
    exact ⟨⟨t, ht, rfl, hcond.1, hcond.2⟩, hnl⟩
  · rintro ⟨⟨t, ht, rfl, ha, hc⟩, hnl⟩
    exact ⟨⟨t, ⟨ht, ha, hc⟩, rfl⟩, hnl⟩

/-! ### Reachability

The set of stores reachable from the empty deployment by complete runs of
the mutating API handlers. Two side conditions on each run record what the
environment guarantees:
* store-generated ObjectIds are globally fresh (never equal to any id string
  already present anywhere in the store);
* ids embedded in request payloads are syntactically valid — on such
  payloads the mongoose driver raises no mid-handler cast error, so the
  handler runs to completion exactly as the pure embedding does.
-/

def wfTaskBody (b : TaskBody) : Bool :=
  match b.assignedUser with
  | some au => au == "" || isValidId au
  | none => true

def wfUserBody (b : UserBody) : Bool :=
  match b.pendingTasks with
  | some L => L.all isValidId
  | none => true

def freshTaskId (tid : String) (s : Store) : Bool :=
  isValidId tid && s.tasks.all (fun t => t.id != tid)

def freshUserId (uid : String) (s : Store) : Bool :=
  isValidId uid && s.users.all (fun u => u.id != uid) &&
    s.tasks.all (fun t => t.assignedUser != uid)

inductive Reachable : Store → Prop
  | empty : Reachable ⟨[], []⟩
  | stepPostTask (s : Store) (tid : String) (now : Nat) (b : TaskBody) :
      Reachable s → freshTaskId tid s = true → wfTaskBody b = true →
      Reachable (postTask tid now b s).2
  | stepPutTask (s : Store) (tid : String) (b : TaskBody) :
      Reachable s → wfTaskBody b = true → Reachable (putTask tid b s).2
  | stepDeleteTask (s : Store) (tid : String) :
      Reachable s → Reachable (deleteTask tid s).2
  | stepPostUser (s : Store) (uid : String) (now : Nat) (b : UserBody) :
      Reachable s → freshUserId uid s = true → wfUserBody b = true →
      Reachable (postUser uid now b s).2
  | stepPutUser (s : Store) (uid : String) (b : UserBody) :
      Reachable s → wfUserBody b = true → Reachable (putUser uid b s).2
  | stepDeleteUser (s : Store) (uid : String) :
      Reachable s → Reachable (deleteUser uid s).2

/-! ### The assignment invariant -/

/-- The assignment invariant exactly as the specification states it: every
pending task with `assignedUser = U.id` is listed in U's pendingTasks, and
conversely no completed or unassigned task appears in any user's
pendingTasks. -/
def AssignmentInvariant (s : Store) : Prop :=
  (∀ t ∈ s.tasks, t.completed = false → ∀ u ∈ s.users,
      t.assignedUser = u.id → t.id ∈ u.pendingTasks) ∧
  (∀ u ∈ s.users, ∀ t ∈ s.tasks, t.id ∈ u.pendingTasks →
      t.completed = false ∧ t.assignedUser ≠ "")

/-- The forward half of the invariant on its own. -/
def PendingAssignedListed (s : Store) : Prop :=
  ∀ t ∈ s.tasks, t.completed = false → ∀ u ∈ s.users,
      t.assignedUser = u.id → t.id ∈ u.pendingTasks

/-- Auxiliary invariant: every stored user id is a syntactically valid
ObjectId (Mongo generated it). -/
def UsersValidIds (s : Store) : Prop :=
  ∀ u ∈ s.users, isValidId u.id = true

def StoreInv (s : Store) : Prop := UsersValidIds s ∧ PendingAssignedListed s

theorem validId_ne_empty (x : String) (h : isValidId x = true) : x ≠ "" := by
  intro he
  rw [he] at h
  exact absurd h (by decide)

theorem freshTaskId_spec (tid : String) (s : Store)
    (h : freshTaskId tid s = true) :
    isValidId tid = true ∧ ∀ t ∈ s.tasks, t.id ≠ tid := by
  unfold freshTaskId at h
  rw [Bool.and_eq_true] at h
  refine ⟨h.1, fun t ht => ?_⟩
  have := List.all_eq_true.mp h.2 t ht
  simpa using this

theorem freshUserId_spec (uid : String) (s : Store)
    (h : freshUserId uid s = true) :
    isValidId uid = true ∧ (∀ u ∈ s.users, u.id ≠ uid) ∧
      ∀ t ∈ s.tasks, t.assignedUser ≠ uid := by
  unfold freshUserId at h
  rw [Bool.and_eq_true, Bool.and_eq_true] at h
  refine ⟨h.1.1, fun u hu => ?_, fun t ht => ?_⟩
  · have := List.all_eq_true.mp h.1.2 u hu
    simpa using this
  · have := List.all_eq_true.mp h.2 t ht
    simpa using this

theorem usersValid_sync (task : Task) (p : Option String) (s : Store)
    (h : UsersValidIds s) :
    UsersValidIds (syncUserPendingForTask task p s) := by
  intro u' hu'
  rw [sync_users] at hu'
  obtain ⟨u, hu, rfl⟩ := List.mem_map.mp hu'
  rw [syncUser_id]
  exact h u hu

/-- Shape of the fixup's second component: either nothing was re-saved, or
the appended document was re-saved with a different `assignedUserName`. -/
theorem postTaskFix_snd_cases (t : Task) (s1 : Store) :
    (postTaskFix t s1).2 = s1 ∨
      ∃ n, (postTaskFix t s1).2 =
        saveTask { t with assignedUserName := n } s1 := by
  simp only [postTaskFix]
  split_ifs <;>
    first
      | exact Or.inl rfl
      | exact Or.inr ⟨_, rfl⟩

/-- Every task in the store the synchronizer of POST /tasks runs on is an
untouched old task or carries the new document's key fields. -/
theorem postTaskFix_tasks_mem (t : Task) (s : Store)
    (hfresh : ∀ x ∈ s.tasks, x.id ≠ t.id) :
    ∀ x ∈ (postTaskFix t { s with tasks := s.tasks ++ [t] }).2.tasks,
      x ∈ s.tasks ∨
        (x.id = t.id ∧ x.completed = t.completed ∧
          x.assignedUser = t.assignedUser) := by
  intro x hx
  rcases postTaskFix_snd_cases t { s with tasks := s.tasks ++ [t] } with
    h | ⟨n, h⟩
  · rw [h] at hx
    rcases List.mem_append.mp hx with hold | hnew
    · exact Or.inl hold
    · rcases List.mem_singleton.mp hnew with rfl
      exact Or.inr ⟨rfl, rfl, rfl⟩
  · rw [h] at hx
    obtain ⟨y, hy, rfl⟩ := List.mem_map.mp hx
    rcases List.mem_append.mp hy with hold | hnew
    · by_cases hid : y.id = ({ t with assignedUserName := n } : Task).id
      · exact absurd hid (hfresh y hold)
      · rw [if_neg hid]
        exact Or.inl hold
    · rcases List.mem_singleton.mp hnew with rfl
      by_cases hid : y.id = ({ y with assignedUserName := n } : Task).id
      · rw [if_pos hid]
        exact Or.inr ⟨rfl, rfl, rfl⟩
      · rw [if_neg hid]
        exact Or.inr ⟨rfl, rfl, rfl⟩

theorem storeInv_postTask (tid : String) (now : Nat) (b : TaskBody)
    (s : Store) (hinv : StoreInv s) (hfresh : freshTaskId tid s = true) :
    StoreInv (postTask tid now b s).2 := by
  obtain ⟨hval, hP⟩ := hinv
  obtain ⟨-, hfr⟩ := freshTaskId_spec tid s hfresh
  unfold postTask
  split
  · exact ⟨hval, hP⟩
  · set t := postTaskDoc tid now b with ht
    set fix := postTaskFix t { s with tasks := s.tasks ++ [t] } with hfix
    have hfrt : ∀ x ∈ s.tasks, x.id ≠ t.id := fun x hx => hfr x hx
    have husers : fix.2.users = s.users := postTaskFix_snd_users _ _
    constructor
    · intro u' hu'
      rw [sync_users] at hu'
      obtain ⟨u, hu, rfl⟩ := List.mem_map.mp hu'
      rw [syncUser_id]
      rw [husers] at hu
      exact hval u hu
    · intro x hx hxc u' hu' hxa
      rw [sync_tasks_unchanged] at hx
      rw [sync_users, husers] at hu'
      obtain ⟨u, hu, rfl⟩ := List.mem_map.mp hu'
      rw [syncUser_id] at hxa
      rcases postTaskFix_tasks_mem t s hfrt x hx with hold | ⟨hid, hcomp, hau⟩
      · have hmem : x.id ∈ u.pendingTasks := hP x hold hxc u hu hxa
        have hne : x.id ≠ fix.1.id := by
          rw [postTaskFix_fst_id]
          exact hfrt x hold
        exact (mem_syncUser_of_ne fix.1 none u x.id hne).mpr hmem
      · have hne : fix.1.assignedUser ≠ "" := by
          rw [postTaskFix_fst_assignedUser, ← hau, hxa]
          exact validId_ne_empty u.id (hval u hu)
        have hcp : fix.1.completed = false := by
          rw [postTaskFix_fst_completed, ← hcomp, hxc]
        have hmem := mem_syncUser_assignee fix.1 none u hcp hne
          (by rw [postTaskFix_fst_assignedUser, ← hau, hxa])
        rw [postTaskFix_fst_id, ← hid] at hmem
        exact hmem

theorem storeInv_putTask (tid : String) (b : TaskBody) (s : Store)
    (hinv : StoreInv s) : StoreInv (putTask tid b s).2 := by
  obtain ⟨hval, hP⟩ := hinv
  by_cases hv : isValidId tid = true
  · by_cases hbody : (bodyStrPresent b.name && bodyStrPresent b.deadline)
        = true
    · rcases hf : findTask tid s with _ | before
      · have hres : (putTask tid b s).2 = s := by
          unfold putTask
          rw [hv, hf]
          simp [hbody]
        rw [hres]
        exact ⟨hval, hP⟩
      · rw [Bool.and_eq_true] at hbody
        obtain ⟨hn, hd⟩ := hbody
        rw [putTask_success tid b s before hv hn hd hf]
        constructor
        · intro u' hu'
          rw [sync_users, saveTask_users] at hu'
          obtain ⟨u, hu, rfl⟩ := List.mem_map.mp hu'
          rw [syncUser_id]
          exact hval u hu
        · intro x hx hxc u' hu' hxa
          rw [sync_tasks_unchanged] at hx
          rw [sync_users, saveTask_users] at hu'
          obtain ⟨u, hu, rfl⟩ := List.mem_map.mp hu'
          rw [syncUser_id] at hxa
          obtain ⟨y, hy, rfl⟩ := List.mem_map.mp hx
          by_cases hid : y.id = (putTaskDoc before b s).id
          · rw [if_pos hid] at hxc hxa ⊢
            have hne : (putTaskDoc before b s).assignedUser ≠ "" := by
              rw [hxa]
              exact validId_ne_empty u.id (hval u hu)
            exact mem_syncUser_assignee (putTaskDoc before b s)
              (some before.assignedUser) u hxc hne hxa.symm
          · rw [if_neg hid] at hxc hxa ⊢
            have hmem : y.id ∈ u.pendingTasks := hP y hy hxc u hu hxa
            exact (mem_syncUser_of_ne (putTaskDoc before b s)
              (some before.assignedUser) u y.id hid).mpr hmem
    · have hres : (putTask tid b s).2 = s := by
        unfold putTask
        rw [hv]
        simp [hbody]
      rw [hres]
      exact ⟨hval, hP⟩
  · have hv2 : isValidId tid = false := Bool.eq_false_iff.mpr hv
    have hres : (putTask tid b s).2 = s := by
      unfold putTask
      rw [hv2]
      rfl
    rw [hres]
    exact ⟨hval, hP⟩

theorem storeInv_deleteTask (tid : String) (s : Store)
    (hinv : StoreInv s) : StoreInv (deleteTask tid s).2 := by
  obtain ⟨hval, hP⟩ := hinv
  by_cases hv : isValidId tid = true
  · rcases hf : findTask tid s with _ | task
    · have hres : (deleteTask tid s).2 = s := by
        unfold deleteTask
        rw [hv, hf]
        rfl
      rw [hres]
      exact ⟨hval, hP⟩
    · rw [deleteTask_success tid s task hv hf]
      have husers : ∀ u' ∈ (if task.assignedUser ≠ "" then
          usersUpdateOne task.assignedUser (pullPending task.id) s
          else s).users,
          ∃ u ∈ s.users, u'.id = u.id ∧
            ∀ x, x ≠ task.id → (x ∈ u'.pendingTasks ↔ x ∈ u.pendingTasks)
          := by
        intro u' hu'
        split at hu'
        · obtain ⟨u, hu, rfl⟩ := List.mem_map.mp hu'
          by_cases hc : u.id = task.assignedUser
          · rw [if_pos hc]
            refine ⟨u, hu, rfl, fun x hx => ?_⟩
            rw [mem_pullPending]
            exact ⟨fun h => h.1, fun h => ⟨h, hx⟩⟩
          · rw [if_neg hc]
            exact ⟨u, hu, rfl, fun x _ => Iff.rfl⟩
        · exact ⟨u', hu', rfl, fun x _ => Iff.rfl⟩
      constructor
      · intro u' hu'
        obtain ⟨u, hu, hid, -⟩ := husers u' hu'
        rw [hid]
        exact hval u hu
      · intro x hx hxc u' hu' hxa
        have hxmem := List.mem_filter.mp hx
        have hxs : x ∈ s.tasks := hxmem.1
        have hxne : x.id ≠ tid := by simpa using hxmem.2
        obtain ⟨u, hu, hid, hpend⟩ := husers u' hu'
        rw [hid] at hxa
        have htaskid : task.id = tid := (findTask_some tid s task hf).2
        refine (hpend x.id (by rw [htaskid]; exact hxne)).mpr ?_
        exact hP x hxs hxc u hu hxa
  · have hv2 : isValidId tid = false := Bool.eq_false_iff.mpr hv
    have hres : (deleteTask tid s).2 = s := by
      unfold deleteTask
      rw [hv2]
      rfl
    rw [hres]
    exact ⟨hval, hP⟩

theorem storeInv_postUser (uid : String) (now : Nat) (b : UserBody)
    (s : Store) (hinv : StoreInv s) (hfresh : freshUserId uid s = true) :
    StoreInv (postUser uid now b s).2 := by
  obtain ⟨hval, hP⟩ := hinv
  obtain ⟨hvu, hfru, hfrt⟩ := freshUserId_spec uid s hfresh
  rcases Bool.eq_false_or_eq_true
      (bodyStrPresent b.name && bodyStrPresent b.email) with hbody | hbody
  swap
  · have hres : (postUser uid now b s).2 = s := by
      unfold postUser
      rw [hbody]
      rfl
    rw [hres]
    exact ⟨hval, hP⟩
  · rcases Bool.eq_false_or_eq_true
        ((s.users.find? (fun u =>
          u.email == strLower (b.email.getD ""))).isSome) with hdup | hdup
    · have hres : (postUser uid now b s).2 = s := by
        unfold postUser
        rw [hbody, hdup]
        rfl
      rw [hres]
      exact ⟨hval, hP⟩
    · rw [Bool.and_eq_true] at hbody
      obtain ⟨hn, he⟩ := hbody
      rw [postUser_success uid now b s hn he hdup]
      have husers : ∀ u' : User,
          u' ∈ s.users ++ [mkUserDoc uid now b] →
          u' ∈ s.users ∨ u' = mkUserDoc uid now b := by
        intro u' hu'
        rcases List.mem_append.mp hu' with h | h
        · exact Or.inl h
        · exact Or.inr (List.mem_singleton.mp h)
      have hvalid2 : ∀ u' ∈ s.users ++ [mkUserDoc uid now b],
          isValidId u'.id = true := by
        intro u' hu'
        rcases husers u' hu' with h | heq
        · exact hval u' h
        · rw [heq]
          exact hvu
      split
      · -- non-empty pendingTasks: the set pass runs
        constructor
        · intro u' hu'
          rw [userSetPass_users] at hu'
          exact hvalid2 u' hu'
        · intro x' hx' hxc u' hu' hxa
          rw [userSetPass_users] at hu'
          rw [userSetPass_tasks] at hx'
          obtain ⟨x, hx, rfl⟩ := List.mem_map.mp hx'
          by_cases hcond : x.id ∈ (mkUserDoc uid now b).pendingTasks ∧
              x.completed = false
          · rw [if_pos hcond] at hxc hxa ⊢
            rcases husers u' hu' with h | heq
            · exact absurd hxa.symm (hfru u' h)
            · rw [heq]
              exact hcond.1
          · rw [if_neg hcond] at hxc hxa ⊢
            rcases husers u' hu' with h | heq
            · exact hP x hx hxc u' h hxa
            · rw [heq] at hxa
              exact absurd hxa (hfrt x hx)
      · -- empty pendingTasks: only the user record was appended
        constructor
        · intro u' hu'
          exact hvalid2 u' hu'
        · intro x hx hxc u' hu' hxa
          rcases husers u' hu' with h | heq
          · exact hP x hx hxc u' h hxa
          · rw [heq] at hxa
            exact absurd hxa (hfrt x hx)

theorem storeInv_putUser (uid : String) (b : UserBody) (s : Store)
    (hinv : StoreInv s) : StoreInv (putUser uid b s).2 := by
  obtain ⟨hval, hP⟩ := hinv
  by_cases hv : isValidId uid = true
  · rcases Bool.eq_false_or_eq_true
        (bodyStrPresent b.name && bodyStrPresent b.email) with hbody | hbody
    swap
    · have hres : (putUser uid b s).2 = s := by
        unfold putUser
        rw [hv, hbody]
        rfl
      rw [hres]
      exact ⟨hval, hP⟩
    · rcases Bool.eq_false_or_eq_true
          ((s.users.find? (fun u =>
            u.email == strLower (b.email.getD "") && u.id != uid)).isSome)
          with hdup | hdup
      · have hres : (putUser uid b s).2 = s := by
          unfold putUser
          rw [hv, hbody, hdup]
          rfl
        rw [hres]
        exact ⟨hval, hP⟩
      · rcases hf : findUser uid s with _ | before
        · have hres : (putUser uid b s).2 = s := by
            unfold putUser
            rw [hv, hbody, hdup, hf]
            rfl
          rw [hres]
          exact ⟨hval, hP⟩
        · rw [Bool.and_eq_true] at hbody
          obtain ⟨hn, he⟩ := hbody
          rw [putUser_success uid b s before hv hn he hdup hf]
          obtain ⟨hbmem, hbid⟩ := findUser_some uid s before hf
          have huid : ({ before with
              name := b.name.getD ""
              email := strLower (b.email.getD "")
              pendingTasks := b.pendingTasks.getD [] } : User).id = uid :=
            hbid
          have hvalu : ∀ u : User, u ∈ s.users →
              isValidId (if u.id = ({ before with
                name := b.name.getD ""
                email := strLower (b.email.getD "")
                pendingTasks := b.pendingTasks.getD [] } : User).id then
                  ({ before with
                    name := b.name.getD ""
                    email := strLower (b.email.getD "")
                    pendingTasks := b.pendingTasks.getD [] } : User)
                else u).id = true := by
            intro u hu
            by_cases hui : u.id = ({ before with
                name := b.name.getD ""
                email := strLower (b.email.getD "")
                pendingTasks := b.pendingTasks.getD [] } : User).id
            · rw [if_pos hui, huid, ← hbid]
              exact hval before hbmem
            · rw [if_neg hui]
              exact hval u hu
          constructor
          · intro u' hu'
            rw [userDropPass_users, userSetPass_users] at hu'
            obtain ⟨u, hu, rfl⟩ := List.mem_map.mp hu'
            exact hvalu u hu
          · intro x' hx' hxc u' hu' hxa
            rw [userDropPass_users, userSetPass_users] at hu'
            rw [userDropPass_tasks, userSetPass_tasks, saveUser_tasks]
              at hx'
            obtain ⟨y, hy, rfl⟩ := List.mem_map.mp hx'
            obtain ⟨x, hx, rfl⟩ := List.mem_map.mp hy
            obtain ⟨u, hu, rfl⟩ := List.mem_map.mp hu'
            by_cases hd : (if x.id ∈ b.pendingTasks.getD [] ∧
                x.completed = false then
                  { x with
                    assignedUser := uid
                    assignedUserName := b.name.getD "" }
                else x).id ∈ dropIdsOf uid (b.pendingTasks.getD [])
                (userSetPass uid (b.name.getD "") (b.pendingTasks.getD [])
                  (saveUser
                    { before with
                      name := b.name.getD ""
                      email := strLower (b.email.getD "")
                      pendingTasks := b.pendingTasks.getD [] } s))
            · rw [if_pos hd] at hxa
              exact absurd hxa.symm (validId_ne_empty _ (hvalu u hu))
            · rw [if_neg hd] at hxc hxa ⊢
              by_cases hcond : x.id ∈ b.pendingTasks.getD [] ∧
                  x.completed = false
              · rw [if_pos hcond] at hxc hxa hd ⊢
                by_cases hui : u.id = ({ before with
                    name := b.name.getD ""
                    email := strLower (b.email.getD "")
                    pendingTasks := b.pendingTasks.getD [] } : User).id
                · rw [if_pos hui]
                  exact hcond.1
                · rw [if_neg hui] at hxa ⊢
                  rw [huid] at hui
                  exact absurd hxa.symm hui
              · rw [if_neg hcond] at hxc hxa hd ⊢
                by_cases hui : u.id = ({ before with
                    name := b.name.getD ""
                    email := strLower (b.email.getD "")
                    pendingTasks := b.pendingTasks.getD [] } : User).id
                · exfalso
                  rw [if_pos hui] at hxa
                  rw [huid] at hxa
                  apply hd
                  refine (mem_dropIdsOf _ _ _ _).mpr
                    ⟨⟨x, ?_, rfl, hxa, hxc⟩, ?_⟩
                  · rw [userSetPass_tasks, saveUser_tasks]
                    exact List.mem_map.mpr ⟨x, hx, if_neg hcond⟩
                  · intro hmemL
                    exact hcond ⟨hmemL, hxc⟩
                · rw [if_neg hui] at hxa ⊢
                  exact hP x hx hxc u hu hxa
  · have hv2 : isValidId uid = false := Bool.eq_false_iff.mpr hv
    have hres : (putUser uid b s).2 = s := by
      unfold putUser
      rw [hv2]
      rfl
    rw [hres]
    exact ⟨hval, hP⟩

theorem storeInv_deleteUser (uid : String) (s : Store)
    (hinv : StoreInv s) : StoreInv (deleteUser uid s).2 := by
  obtain ⟨hval, hP⟩ := hinv
  by_cases hv : isValidId uid = true
  · rcases hf : findUser uid s with _ | u0
    · have hres : (deleteUser uid s).2 = s := by
        unfold deleteUser
        rw [hv, hf]
        rfl
      rw [hres]
      exact ⟨hval, hP⟩
    · rw [deleteUser_success uid s u0 hv hf]
      constructor
      · intro u' hu'
        exact hval u' (List.mem_filter.mp hu').1
      · intro x' hx' hxc u' hu' hxa
        have hu'mem := List.mem_filter.mp hu'
        obtain ⟨x, hx, rfl⟩ := List.mem_map.mp hx'
        by_cases hcond : x.assignedUser = uid ∧ x.completed = false
        · rw [if_pos hcond] at hxa
          exact absurd hxa.symm
            (validId_ne_empty _ (hval u' hu'mem.1))
        · rw [if_neg hcond] at hxc hxa ⊢
          exact hP x hx hxc u' hu'mem.1 hxa
  · have hv2 : isValidId uid = false := Bool.eq_false_iff.mpr hv
    have hres : (deleteUser uid s).2 = s := by
      unfold deleteUser
      rw [hv2]
      rfl
    rw [hres]
    exact ⟨hval, hP⟩

theorem storeInv_of_reachable (s : Store) (h : Reachable s) : StoreInv s := by
  induction h with
  | empty =>
      exact ⟨fun u hu => absurd hu (List.not_mem_nil u),
             fun t ht => absurd ht (List.not_mem_nil t)⟩
  | stepPostTask s tid now b hr hfresh hwf ih =>
      exact storeInv_postTask tid now b s ih hfresh
  | stepPutTask s tid b hr hwf ih =>
      exact storeInv_putTask tid b s ih
  | stepDeleteTask s tid hr ih =>
      exact storeInv_deleteTask tid s ih
  | stepPostUser s uid now b hr hfresh hwf ih =>
      exact storeInv_postUser uid now b s ih hfresh
  | stepPutUser s uid b hr hwf ih =>
      exact storeInv_putUser uid b s ih
  | stepDeleteUser s uid hr ih =>
      exact storeInv_deleteUser uid s ih

/-! ### Claim theorems -/

/-- A store reached from the empty deployment by two API calls: POST /tasks
creating a completed task, then POST /users listing that completed task's id
in `pendingTasks`. -/
def c1Chain : Store :=
  (postUser "userbbbbbbbb" 2
    ⟨some "Bob", some "bob@x.com", some ["taskaaaaaaaa"]⟩
    (postTask "taskaaaaaaaa" 1
      ⟨some "A", none, some "d", some true, none, none⟩ ⟨[], []⟩).2).2

/-- C1 counterexample: the spec's full assignment invariant fails on a
reachable store — POST /users stores the given pendingTasks list verbatim
and its reverse-sync `updateMany` filters on `completed: false`, so a
completed task's id stays in the new user's pendingTasks, violating the
invariant's converse half ("no completed task appears in any user's
pendingTasks"). -/
theorem assignment_invariant_counterexample :
    Reachable c1Chain ∧ ¬ AssignmentInvariant c1Chain := by
  constructor
  · exact Reachable.stepPostUser _ _ _ _
      (Reachable.stepPostTask _ _ _ _ Reachable.empty (by decide)
        (by decide))
      (by decide) (by decide)
  · unfold AssignmentInvariant
    decide

/-- C1 (amended): over stores reachable by complete runs of the API
operations (fresh store-generated ids; payload ids syntactically valid so no
mid-handler cast error interrupts a run), the forward half of the assignment
invariant holds: every task with `completed = false` and
`assignedUser = U.id` has its id in U's pendingTasks. The converse half
("no completed or unassigned task appears in any user's pendingTasks") is
not an invariant of the code — see the counterexample. -/
theorem reachable_pending_assigned_listed (s : Store) (h : Reachable s) :
    PendingAssignedListed s :=
  (storeInv_of_reachable s h).2

theorem reachable_pending_assigned_listed_witness :
    PendingAssignedListed
      (postTask "taskaaaaaaaa" 1
        ⟨some "A", none, some "d", none, none, none⟩ ⟨[], []⟩).2 :=
  reachable_pending_assigned_listed _
    (Reachable.stepPostTask _ _ _ _ Reachable.empty (by decide) (by decide))

/-- C2: a PUT /tasks/:id that changes the assignee from a non-empty U1 to a
different U2 evaluates all three synchronizer rules in the same operation:
the task's id is pulled from U1's pendingTasks; if the saved task is pending
and U2 is non-empty, the id is added to U2's pendingTasks; and if the task is
saved completed with a non-empty U2, the id is also pulled from U2 — the
previous-removal and current-removal rules both fire. -/
theorem put_task_reassignment_rules (s : Store) (tid : String) (b : TaskBody)
    (before : Task)
    (hvalid : isValidId tid = true)
    (hname : bodyStrPresent b.name = true)
    (hdl : bodyStrPresent b.deadline = true)
    (hfind : findTask tid s = some before)
    (hU1 : before.assignedUser ≠ "")
    (hdiff : b.assignedUser.getD "" ≠ before.assignedUser) :
    ∀ u' ∈ (putTask tid b s).2.users,
      (u'.id = before.assignedUser → tid ∉ u'.pendingTasks) ∧
      (u'.id = b.assignedUser.getD "" → b.assignedUser.getD "" ≠ "" →
        ((b.completed.getD false = false → tid ∈ u'.pendingTasks) ∧
         (b.completed.getD false = true → tid ∉ u'.pendingTasks))) := by
  intro u' hu'
  rw [putTask_success tid b s before hvalid hname hdl hfind] at hu'
  have htid : (putTaskDoc before b s).id = tid := by
    rw [putTaskDoc_id]
    exact (findTask_some tid s before hfind).2
  rw [sync_users, saveTask_users] at hu'
  obtain ⟨u, hu, rfl⟩ := List.mem_map.mp hu'
  constructor
  · intro h1
    rw [syncUser_id] at h1
    have hnm := not_mem_syncUser_prevUser (putTaskDoc before b s)
      (some before.assignedUser) u
      (by simpa using hU1)
      (by
        rw [putTaskDoc_assignedUser]
        simpa using Ne.symm hdiff)
      (by simpa using h1)
    rw [htid] at hnm
    exact hnm
  · intro h2 hne2
    rw [syncUser_id] at h2
    constructor
    · intro hcp
      have hmem := mem_syncUser_assignee (putTaskDoc before b s)
        (some before.assignedUser) u
        (by rw [putTaskDoc_completed]; exact hcp)
        (by rw [putTaskDoc_assignedUser]; exact hne2)
        (by rw [putTaskDoc_assignedUser]; exact h2)
      rw [htid] at hmem
      exact hmem
    · intro hcc
      have hnm := not_mem_syncUser_completed (putTaskDoc before b s)
        (some before.assignedUser) u
        (by rw [putTaskDoc_completed]; exact hcc)
        (by rw [putTaskDoc_assignedUser]; exact hne2)
        (by rw [putTaskDoc_assignedUser]; exact h2)
      rw [htid] at hnm
      exact hnm

/-- A store produced from the empty deployment by four API calls: create a
user, create a pending task assigned to that user, replace the user with a
`pendingTasks` list that repeats the task's id, then re-save the task
unchanged. -/
def c3Chain : Store :=
  (putTask "taskaaaaaaaa"
    ⟨some "A", none, some "d", none, some "userbbbbbbbb", none⟩
    (putUser "userbbbbbbbb"
      ⟨some "Bob", some "bob@x.com", some ["taskaaaaaaaa", "taskaaaaaaaa"]⟩
      (postTask "taskaaaaaaaa" 2
        ⟨some "A", none, some "d", none, some "userbbbbbbbb", none⟩
        (postUser "userbbbbbbbb" 1 ⟨some "Bob", some "bob@x.com", none⟩
          ⟨[], []⟩).2).2).2).2

/-- C3 counterexample: after an API-reachable PUT /users/:id stored a
duplicated pendingTasks list, re-saving the still-pending, still-assigned
task leaves the assignee's pendingTasks containing the task's id twice —
`$addToSet` does not deduplicate existing entries, so "exactly once" fails. -/
theorem pending_exactly_once_counterexample :
    Reachable c3Chain ∧
    (findTask "taskaaaaaaaa" c3Chain).map
        (fun t => (t.completed, t.assignedUser)) =
      some (false, "userbbbbbbbb") ∧
    (findUser "userbbbbbbbb" c3Chain).map
        (fun u => u.pendingTasks.count "taskaaaaaaaa") = some 2 := by
  refine ⟨?_, by decide, by decide⟩
  exact Reachable.stepPutTask _ _ _
    (Reachable.stepPutUser _ _ _
      (Reachable.stepPostTask _ _ _ _
        (Reachable.stepPostUser _ _ _ _ Reachable.empty (by decide)
          (by decide))
        (by decide) (by decide))
      (by decide))
    (by decide)

/-- C3 (amended): after a create or replace of a task that is not completed
and has a non-empty assignedUser, the assignee's pendingTasks contains the
task's id exactly once, provided no stored user listed that id more than
once beforehand (a PUT /users with a duplicated list can violate that);
and the synchronizer is idempotent: running it twice with the same inputs
yields the same store as running it once. -/
theorem pending_added_exactly_once (s : Store) (tid : String) (b : TaskBody)
    (before : Task)
    (hvalid : isValidId tid = true)
    (hname : bodyStrPresent b.name = true)
    (hdl : bodyStrPresent b.deadline = true)
    (hfind : findTask tid s = some before)
    (hc : b.completed.getD false = false)
    (hau : b.assignedUser.getD "" ≠ "")
    (hcount : ∀ u ∈ s.users, u.pendingTasks.count tid ≤ 1)
    (now : Nat) (tid2 : String)
    (hcount2 : ∀ u ∈ s.users, u.pendingTasks.count tid2 ≤ 1) :
    (∀ u' ∈ (putTask tid b s).2.users,
        u'.id = b.assignedUser.getD "" → u'.pendingTasks.count tid = 1) ∧
    (∀ u' ∈ (postTask tid2 now b s).2.users,
        u'.id = b.assignedUser.getD "" →
          u'.pendingTasks.count tid2 = 1) ∧
    (∀ (task : Task) (p : Option String) (s' : Store),
        syncUserPendingForTask task p (syncUserPendingForTask task p s') =
          syncUserPendingForTask task p s') := by
  refine ⟨?_, ?_, fun task p s' => sync_idem task p s'⟩
  · intro u' hu' hid
    rw [putTask_success tid b s before hvalid hname hdl hfind] at hu'
    rw [sync_users, saveTask_users] at hu'
    obtain ⟨u, hu, rfl⟩ := List.mem_map.mp hu'
    rw [syncUser_id] at hid
    have htid : (putTaskDoc before b s).id = tid := by
      rw [putTaskDoc_id]
      exact (findTask_some tid s before hfind).2
    have hcnt := count_syncUser_assignee (putTaskDoc before b s)
      (some before.assignedUser) u
      (by rw [putTaskDoc_completed]; exact hc)
      (by rw [putTaskDoc_assignedUser]; exact hau)
      (by rw [putTaskDoc_assignedUser]; exact hid)
      (by rw [htid]; exact hcount u hu)
    rw [htid] at hcnt
    exact hcnt
  · intro u' hu' hid
    rw [postTask_success tid2 now b s hname hdl] at hu'
    rw [sync_users, postTaskFix_snd_users] at hu'
    obtain ⟨u, hu, rfl⟩ := List.mem_map.mp hu'
    rw [syncUser_id] at hid
    have hfid :
        (postTaskFix (postTaskDoc tid2 now b)
          { s with tasks := s.tasks ++ [postTaskDoc tid2 now b] }).1.id =
          tid2 := by
      rw [postTaskFix_fst_id]
      rfl
    have hcnt := count_syncUser_assignee
      (postTaskFix (postTaskDoc tid2 now b)
        { s with tasks := s.tasks ++ [postTaskDoc tid2 now b] }).1 none u
      (by rw [postTaskFix_fst_completed]; exact hc)
      (by rw [postTaskFix_fst_assignedUser]; exact hau)
      (by rw [postTaskFix_fst_assignedUser]; exact hid)
      (by rw [hfid]; exact hcount2 u hu)
    rw [hfid] at hcnt
    exact hcnt

theorem pending_added_exactly_once_witness :
    (∀ u' ∈ (putTask "taskaaaaaaaa"
        ⟨some "A", none, some "d", none, some "userbbbbbbbb", none⟩
        ⟨[⟨"taskaaaaaaaa", "A", "", "d", false, "userbbbbbbbb", "Bob", 0⟩],
         [⟨"userbbbbbbbb", "Bob", "bob@x.com", ["taskaaaaaaaa"], 0⟩]⟩).2.users,
      u'.id = "userbbbbbbbb" →
        u'.pendingTasks.count "taskaaaaaaaa" = 1) ∧
    (∀ u' ∈ (postTask "taskdddddddd" 3
        ⟨some "A", none, some "d", none, some "userbbbbbbbb", none⟩
        ⟨[⟨"taskaaaaaaaa", "A", "", "d", false, "userbbbbbbbb", "Bob", 0⟩],
         [⟨"userbbbbbbbb", "Bob", "bob@x.com", ["taskaaaaaaaa"], 0⟩]⟩).2.users,
      u'.id = "userbbbbbbbb" →
        u'.pendingTasks.count "taskdddddddd" = 1) ∧
    (∀ (task : Task) (p : Option String) (s' : Store),
        syncUserPendingForTask task p (syncUserPendingForTask task p s') =
          syncUserPendingForTask task p s') :=
  pending_added_exactly_once
    ⟨[⟨"taskaaaaaaaa", "A", "", "d", false, "userbbbbbbbb", "Bob", 0⟩],
     [⟨"userbbbbbbbb", "Bob", "bob@x.com", ["taskaaaaaaaa"], 0⟩]⟩
    "taskaaaaaaaa"
    ⟨some "A", none, some "d", none, some "userbbbbbbbb", none⟩
    ⟨"taskaaaaaaaa", "A", "", "d", false, "userbbbbbbbb", "Bob", 0⟩
    (by decide) (by decide) (by decide) (by decide) (by decide) (by decide)
    (by decide) 3 "taskdddddddd" (by decide)

theorem put_task_reassignment_rules_witness :
    ((⟨"userbbbbbbbb", "Bob", "bob@x.com", [], 0⟩ : User).id =
        "userbbbbbbbb" →
      "taskaaaaaaaa" ∉
        (⟨"userbbbbbbbb", "Bob", "bob@x.com", [], 0⟩ : User).pendingTasks) ∧
    ((⟨"userbbbbbbbb", "Bob", "bob@x.com", [], 0⟩ : User).id =
        "usercccccccc" → ("usercccccccc" : String) ≠ "" →
      ((false = false → "taskaaaaaaaa" ∈
          (⟨"userbbbbbbbb", "Bob", "bob@x.com", [], 0⟩ :
            User).pendingTasks) ∧
       (false = true → "taskaaaaaaaa" ∉
          (⟨"userbbbbbbbb", "Bob", "bob@x.com", [], 0⟩ :
            User).pendingTasks))) :=
  put_task_reassignment_rules
    ⟨[⟨"taskaaaaaaaa", "A", "", "d", false, "userbbbbbbbb", "Bob", 0⟩],
     [⟨"userbbbbbbbb", "Bob", "bob@x.com", ["taskaaaaaaaa"], 0⟩,
      ⟨"usercccccccc", "Carol", "carol@x.com", [], 0⟩]⟩
    "taskaaaaaaaa"
    ⟨some "A", none, some "d", none, some "usercccccccc", none⟩
    ⟨"taskaaaaaaaa", "A", "", "d", false, "userbbbbbbbb", "Bob", 0⟩
    (by decide) (by decide) (by decide) (by decide) (by decide) (by decide)
    ⟨"userbbbbbbbb", "Bob", "bob@x.com", [], 0⟩ (by decide)

/-- C6: a syntactically invalid id on any single-resource route
(GET/PUT/DELETE over /tasks/:id and /users/:id) yields status 404 — never a
400 parse error, never a 500 — and leaves the store untouched. -/
theorem invalid_id_gives_404 (i : String) (h : isValidId i = false)
    (b : TaskBody) (ub : UserBody) (s : Store) :
    (getTask i s).status = 404 ∧
    (putTask i b s).1.status = 404 ∧ (putTask i b s).2 = s ∧
    (deleteTask i s).1.status = 404 ∧ (deleteTask i s).2 = s ∧
    (getUser i s).status = 404 ∧
    (putUser i ub s).1.status = 404 ∧ (putUser i ub s).2 = s ∧
    (deleteUser i s).1.status = 404 ∧ (deleteUser i s).2 = s := by
  refine ⟨?_, ?_, ?_, ?_, ?_, ?_, ?_, ?_, ?_, ?_⟩ <;>
    simp [getTask, putTask, deleteTask, getUser, putUser, deleteUser, h]

theorem invalid_id_gives_404_witness :
    isValidId "nope" = false ∧
    ((getTask "nope" ⟨[], []⟩).status = 404 ∧
     (putTask "nope" ⟨none, none, none, none, none, none⟩ ⟨[], []⟩).1.status
        = 404 ∧
     (putTask "nope" ⟨none, none, none, none, none, none⟩ ⟨[], []⟩).2
        = ⟨[], []⟩ ∧
     (deleteTask "nope" ⟨[], []⟩).1.status = 404 ∧
     (deleteTask "nope" ⟨[], []⟩).2 = ⟨[], []⟩ ∧
     (getUser "nope" ⟨[], []⟩).status = 404 ∧
     (putUser "nope" ⟨none, none, none⟩ ⟨[], []⟩).1.status = 404 ∧
     (putUser "nope" ⟨none, none, none⟩ ⟨[], []⟩).2 = ⟨[], []⟩ ∧
     (deleteUser "nope" ⟨[], []⟩).1.status = 404 ∧
     (deleteUser "nope" ⟨[], []⟩).2 = ⟨[], []⟩) :=
  ⟨by decide,
   invalid_id_gives_404 "nope" (by decide)
     ⟨none, none, none, none, none, none⟩ ⟨none, none, none⟩ ⟨[], []⟩⟩

/-- C7: POST /users with an email that equals, case-insensitively, the email
of a stored user (stored emails are lowercased by the schema) responds 400
and leaves the store unchanged — no user record is created. -/
theorem duplicate_email_post_rejected (uid : String) (now : Nat)
    (b : UserBody) (s : Store) (u0 : User) (hu0 : u0 ∈ s.users)
    (hlower : strLower u0.email = u0.email)
    (hemail : strLower u0.email = strLower (b.email.getD "")) :
    (postUser uid now b s).1.status = 400 ∧ (postUser uid now b s).2 = s := by
  by_cases hreq : (bodyStrPresent b.name && bodyStrPresent b.email) = true
  · have hdup :
        (s.users.find? (fun u => u.email == strLower (b.email.getD ""))).isSome
          = true := by
      rw [List.find?_isSome]
      exact ⟨u0, hu0, by rw [beq_iff_eq]; exact hlower.symm.trans hemail⟩
    constructor <;> simp [postUser, hreq, hdup]
  · constructor <;> simp [postUser, hreq]

theorem duplicate_email_post_rejected_witness :
    (⟨"userbbbbbbbb", "Bob", "bob@x.com", [], 0⟩ : User) ∈
        (⟨[], [⟨"userbbbbbbbb", "Bob", "bob@x.com", [], 0⟩]⟩ : Store).users ∧
    (postUser "useraaaaaaaa" 1 ⟨some "Eve", some "BOB@x.com", none⟩
        ⟨[], [⟨"userbbbbbbbb", "Bob", "bob@x.com", [], 0⟩]⟩).1.status = 400 ∧
    (postUser "useraaaaaaaa" 1 ⟨some "Eve", some "BOB@x.com", none⟩
        ⟨[], [⟨"userbbbbbbbb", "Bob", "bob@x.com", [], 0⟩]⟩).2 =
      ⟨[], [⟨"userbbbbbbbb", "Bob", "bob@x.com", [], 0⟩]⟩ :=
  ⟨by decide,
   duplicate_email_post_rejected "useraaaaaaaa" 1
     ⟨some "Eve", some "BOB@x.com", none⟩
     ⟨[], [⟨"userbbbbbbbb", "Bob", "bob@x.com", [], 0⟩]⟩
     ⟨"userbbbbbbbb", "Bob", "bob@x.com", [], 0⟩
     (by decide) (by decide) (by decide)⟩

/-- C8: GET /tasks with neither a limit nor a sort parameter returns at most
100 records, ordered by `dateCreated` descending; GET /users with no limit
parameter applies no cap and no default ordering (the filtered stored list
is returned as is). -/
theorem list_defaults (s : Store) (wt : Task → Bool) (skiptask : Nat)
    (wu : User → Bool) :
    (tasksListQuery wt none skiptask none s).length ≤ 100 ∧
    List.Pairwise (fun a b => b.dateCreated ≤ a.dateCreated)
      (tasksListQuery wt none skiptask none s) ∧
    usersListQuery wu none 0 none s = s.users.filter wu := by
  have htasks : tasksListQuery wt none skiptask none s =
      (if skiptask ≠ 0 then
        (List.insertionSort dateDescOrder (s.tasks.filter wt)).drop skiptask
       else
        List.insertionSort dateDescOrder (s.tasks.filter wt)).take 100 := by
    unfold tasksListQuery
    simp
  refine ⟨?_, ?_, ?_⟩
  · rw [htasks]
    exact List.length_take_le _ _
  · rw [htasks]
    have hsorted :
        List.Pairwise dateDescOrder
          (List.insertionSort dateDescOrder (s.tasks.filter wt)) :=
      List.sorted_insertionSort dateDescOrder (s.tasks.filter wt)
    have hsub :
        ((if skiptask ≠ 0 then
            (List.insertionSort dateDescOrder (s.tasks.filter wt)).drop
              skiptask
          else
            List.insertionSort dateDescOrder
              (s.tasks.filter wt)).take 100).Sublist
          (List.insertionSort dateDescOrder (s.tasks.filter wt)) := by
      refine (List.take_sublist _ _).trans ?_
      split
      · exact List.drop_sublist _ _
      · exact List.Sublist.refl _
    exact hsorted.sublist hsub
  · unfold usersListQuery
    simp

/-- C4: for a successful PUT /users/:id with new pendingTasks list L: every
stored task that is pending and listed in L ends assigned to this user with
the user's new name; every stored task that is pending, assigned to this
user and not listed ends unassigned ("", "unassigned"); and because the set
pass runs before drop candidates are computed, no task of the final store
that is pending and listed in L is left unassigned by the same request. -/
theorem put_user_reverse_sync (uid : String) (b : UserBody) (s : Store)
    (before : User)
    (hvalid : isValidId uid = true)
    (hname : bodyStrPresent b.name = true)
    (hemail : bodyStrPresent b.email = true)
    (hdup : (s.users.find? (fun u =>
        u.email == strLower (b.email.getD "") && u.id != uid)).isSome = false)
    (hfind : findUser uid s = some before) :
    (putUser uid b s).1.status = 200 ∧
    (∀ t ∈ s.tasks, t.completed = false → t.id ∈ b.pendingTasks.getD [] →
      ({ t with assignedUser := uid, assignedUserName := b.name.getD "" } :
        Task) ∈ (putUser uid b s).2.tasks) ∧
    (∀ t ∈ s.tasks, t.completed = false → t.assignedUser = uid →
      t.id ∉ b.pendingTasks.getD [] →
      clearTask t ∈ (putUser uid b s).2.tasks) ∧
    (∀ t' ∈ (putUser uid b s).2.tasks, t'.completed = false →
      t'.id ∈ b.pendingTasks.getD [] → t'.assignedUser = uid) := by
  rw [putUser_success uid b s before hvalid hname hemail hdup hfind]
  refine ⟨rfl, ?_, ?_, ?_⟩
  · intro t ht hc hmem
    rw [userDropPass_tasks, userSetPass_tasks, saveUser_tasks]
    have h1 : ({ t with
        assignedUser := uid
        assignedUserName := b.name.getD "" } : Task) ∈
        s.tasks.map (fun t =>
          if t.id ∈ b.pendingTasks.getD [] ∧ t.completed = false then
            { t with
              assignedUser := uid
              assignedUserName := b.name.getD "" }
          else t) :=
      List.mem_map.mpr ⟨t, ht, if_pos ⟨hmem, hc⟩⟩
    refine List.mem_map.mpr ⟨_, h1, ?_⟩
    exact if_neg (fun hd => ((mem_dropIdsOf _ _ _ _).mp hd).2 hmem)
  · intro t ht hc ha hnot
    rw [userDropPass_tasks, userSetPass_tasks, saveUser_tasks]
    have h1 : t ∈ s.tasks.map (fun t =>
        if t.id ∈ b.pendingTasks.getD [] ∧ t.completed = false then
          { t with assignedUser := uid, assignedUserName := b.name.getD "" }
        else t) :=
      List.mem_map.mpr ⟨t, ht, if_neg (fun h => hnot h.1)⟩
    have hdrop : t.id ∈ dropIdsOf uid (b.pendingTasks.getD [])
        (userSetPass uid (b.name.getD "") (b.pendingTasks.getD [])
          (saveUser
            { before with
              name := b.name.getD ""
              email := strLower (b.email.getD "")
              pendingTasks := b.pendingTasks.getD [] } s)) := by
      refine (mem_dropIdsOf _ _ _ _).mpr ⟨⟨t, ?_, rfl, ha, hc⟩, hnot⟩
      rw [userSetPass_tasks, saveUser_tasks]
      exact h1
    exact List.mem_map.mpr ⟨t, h1, if_pos hdrop⟩
  · intro t' ht' hc' hmem'
    rw [userDropPass_tasks, userSetPass_tasks, saveUser_tasks] at ht'
    obtain ⟨x, hx, rfl⟩ := List.mem_map.mp ht'
    by_cases hd : x.id ∈ dropIdsOf uid (b.pendingTasks.getD [])
        (userSetPass uid (b.name.getD "") (b.pendingTasks.getD [])
          (saveUser
            { before with
              name := b.name.getD ""
              email := strLower (b.email.getD "")
              pendingTasks := b.pendingTasks.getD [] } s))
    · rw [if_pos hd] at hmem' ⊢
      have hnl := ((mem_dropIdsOf _ _ _ _).mp hd).2
      exact absurd hmem' hnl
    · rw [if_neg hd] at hmem' hc' ⊢
      obtain ⟨t0, ht0, rfl⟩ := List.mem_map.mp hx
      by_cases hcond : t0.id ∈ b.pendingTasks.getD [] ∧ t0.completed = false
      · rw [if_pos hcond]
      · rw [if_neg hcond] at hmem' hc' ⊢
        exact absurd ⟨hmem', hc'⟩ hcond

theorem put_user_reverse_sync_witness :
    ((putUser "userbbbbbbbb" ⟨some "Bobby", some "bob@x.com", some []⟩
        ⟨[⟨"taskaaaaaaaa", "A", "", "d", false, "userbbbbbbbb", "Bob", 0⟩],
         [⟨"userbbbbbbbb", "Bob", "bob@x.com", ["taskaaaaaaaa"], 0⟩]⟩).1.status
       = 200 ∧
     (∀ t ∈ ([⟨"taskaaaaaaaa", "A", "", "d", false, "userbbbbbbbb", "Bob", 0⟩]
          : List Task),
        t.completed = false → t.id ∈ ([] : List String) →
        ({ t with
            assignedUser := "userbbbbbbbb"
            assignedUserName := "Bobby" } : Task) ∈
          (putUser "userbbbbbbbb" ⟨some "Bobby", some "bob@x.com", some []⟩
            ⟨[⟨"taskaaaaaaaa", "A", "", "d", false, "userbbbbbbbb", "Bob", 0⟩],
             [⟨"userbbbbbbbb", "Bob", "bob@x.com", ["taskaaaaaaaa"],
               0⟩]⟩).2.tasks) ∧
     (∀ t ∈ ([⟨"taskaaaaaaaa", "A", "", "d", false, "userbbbbbbbb", "Bob", 0⟩]
          : List Task),
        t.completed = false → t.assignedUser = "userbbbbbbbb" →
        t.id ∉ ([] : List String) →
        clearTask t ∈
          (putUser "userbbbbbbbb" ⟨some "Bobby", some "bob@x.com", some []⟩
            ⟨[⟨"taskaaaaaaaa", "A", "", "d", false, "userbbbbbbbb", "Bob", 0⟩],
             [⟨"userbbbbbbbb", "Bob", "bob@x.com", ["taskaaaaaaaa"],
               0⟩]⟩).2.tasks) ∧
     (∀ t' ∈ (putUser "userbbbbbbbb" ⟨some "Bobby", some "bob@x.com", some []⟩
          ⟨[⟨"taskaaaaaaaa", "A", "", "d", false, "userbbbbbbbb", "Bob", 0⟩],
           [⟨"userbbbbbbbb", "Bob", "bob@x.com", ["taskaaaaaaaa"],
             0⟩]⟩).2.tasks,
        t'.completed = false → t'.id ∈ ([] : List String) →
        t'.assignedUser = "userbbbbbbbb")) :=
  put_user_reverse_sync "userbbbbbbbb"
    ⟨some "Bobby", some "bob@x.com", some []⟩
    ⟨[⟨"taskaaaaaaaa", "A", "", "d", false, "userbbbbbbbb", "Bob", 0⟩],
     [⟨"userbbbbbbbb", "Bob", "bob@x.com", ["taskaaaaaaaa"], 0⟩]⟩
    ⟨"userbbbbbbbb", "Bob", "bob@x.com", ["taskaaaaaaaa"], 0⟩
    (by decide) (by decide) (by decide) (by decide) (by decide)

/-- C5: DELETE /users/:id of an existing user clears the assignment of every
pending task assigned to it (assignedUser "", assignedUserName
"unassigned"), removes the user record, deletes no task (same task count;
tasks are only mapped), and alters no task field other than the two
assignment fields. -/
theorem delete_user_unassigns (uid : String) (s : Store) (u0 : User)
    (hvalid : isValidId uid = true) (hfind : findUser uid s = some u0) :
    (deleteUser uid s).1.status = 204 ∧
    (deleteUser uid s).2.tasks =
      s.tasks.map (fun t =>
        if t.assignedUser = uid ∧ t.completed = false then clearTask t
        else t) ∧
    (deleteUser uid s).2.tasks.length = s.tasks.length ∧
    (∀ t ∈ s.tasks, t.assignedUser = uid → t.completed = false →
      clearTask t ∈ (deleteUser uid s).2.tasks) ∧
    (∀ t ∈ s.tasks, ¬(t.assignedUser = uid ∧ t.completed = false) →
      t ∈ (deleteUser uid s).2.tasks) ∧
    (∀ t : Task, (clearTask t).id = t.id ∧ (clearTask t).name = t.name ∧
      (clearTask t).description = t.description ∧
      (clearTask t).deadline = t.deadline ∧
      (clearTask t).completed = t.completed ∧
      (clearTask t).dateCreated = t.dateCreated ∧
      (clearTask t).assignedUser = "" ∧
      (clearTask t).assignedUserName = "unassigned") ∧
    (deleteUser uid s).2.users = s.users.filter (fun u => u.id ≠ uid) ∧
    ∀ u ∈ (deleteUser uid s).2.users, u.id ≠ uid := by
  rw [deleteUser_success uid s u0 hvalid hfind]
  refine ⟨rfl, rfl, by simp, ?_, ?_, ?_, rfl, ?_⟩
  · intro t ht ha hc
    exact List.mem_map.mpr ⟨t, ht, if_pos ⟨ha, hc⟩⟩
  · intro t ht hn
    exact List.mem_map.mpr ⟨t, ht, if_neg hn⟩
  · intro t
    exact ⟨rfl, rfl, rfl, rfl, rfl, rfl, rfl, rfl⟩
  · intro u hu
    have := List.mem_filter.mp hu
    simpa using this.2

theorem delete_user_unassigns_witness :
    ((deleteUser "userbbbbbbbb"
        ⟨[⟨"taskaaaaaaaa", "A", "", "d", false, "userbbbbbbbb", "Bob", 0⟩,
          ⟨"taskdddddddd", "B", "", "d", true, "userbbbbbbbb", "Bob", 0⟩],
         [⟨"userbbbbbbbb", "Bob", "bob@x.com", ["taskaaaaaaaa"],
           0⟩]⟩).1.status = 204 ∧
     (deleteUser "userbbbbbbbb"
        ⟨[⟨"taskaaaaaaaa", "A", "", "d", false, "userbbbbbbbb", "Bob", 0⟩,
          ⟨"taskdddddddd", "B", "", "d", true, "userbbbbbbbb", "Bob", 0⟩],
         [⟨"userbbbbbbbb", "Bob", "bob@x.com", ["taskaaaaaaaa"],
           0⟩]⟩).2.tasks =
       ([⟨"taskaaaaaaaa", "A", "", "d", false, "userbbbbbbbb", "Bob", 0⟩,
         ⟨"taskdddddddd", "B", "", "d", true, "userbbbbbbbb", "Bob",
           0⟩] : List Task).map (fun t =>
          if t.assignedUser = "userbbbbbbbb" ∧ t.completed = false then
            clearTask t
          else t) ∧
     (deleteUser "userbbbbbbbb"
        ⟨[⟨"taskaaaaaaaa", "A", "", "d", false, "userbbbbbbbb", "Bob", 0⟩,
          ⟨"taskdddddddd", "B", "", "d", true, "userbbbbbbbb", "Bob", 0⟩],
         [⟨"userbbbbbbbb", "Bob", "bob@x.com", ["taskaaaaaaaa"],
           0⟩]⟩).2.tasks.length = 2 ∧
     (∀ t ∈ ([⟨"taskaaaaaaaa", "A", "", "d", false, "userbbbbbbbb", "Bob", 0⟩,
          ⟨"taskdddddddd", "B", "", "d", true, "userbbbbbbbb", "Bob",
            0⟩] : List Task),
        t.assignedUser = "userbbbbbbbb" → t.completed = false →
        clearTask t ∈ (deleteUser "userbbbbbbbb"
          ⟨[⟨"taskaaaaaaaa", "A", "", "d", false, "userbbbbbbbb", "Bob", 0⟩,
            ⟨"taskdddddddd", "B", "", "d", true, "userbbbbbbbb", "Bob", 0⟩],
           [⟨"userbbbbbbbb", "Bob", "bob@x.com", ["taskaaaaaaaa"],
             0⟩]⟩).2.tasks) ∧
     (∀ t ∈ ([⟨"taskaaaaaaaa", "A", "", "d", false, "userbbbbbbbb", "Bob", 0⟩,
          ⟨"taskdddddddd", "B", "", "d", true, "userbbbbbbbb", "Bob",
            0⟩] : List Task),
        ¬(t.assignedUser = "userbbbbbbbb" ∧ t.completed = false) →
        t ∈ (deleteUser "userbbbbbbbb"
          ⟨[⟨"taskaaaaaaaa", "A", "", "d", false, "userbbbbbbbb", "Bob", 0⟩,
            ⟨"taskdddddddd", "B", "", "d", true, "userbbbbbbbb", "Bob", 0⟩],
           [⟨"userbbbbbbbb", "Bob", "bob@x.com", ["taskaaaaaaaa"],
             0⟩]⟩).2.tasks) ∧
     (∀ t : Task, (clearTask t).id = t.id ∧ (clearTask t).name = t.name ∧
       (clearTask t).description = t.description ∧
       (clearTask t).deadline = t.deadline ∧
       (clearTask t).completed = t.completed ∧
       (clearTask t).dateCreated = t.dateCreated ∧
       (clearTask t).assignedUser = "" ∧
       (clearTask t).assignedUserName = "unassigned") ∧
     (deleteUser "userbbbbbbbb"
        ⟨[⟨"taskaaaaaaaa", "A", "", "d", false, "userbbbbbbbb", "Bob", 0⟩,
          ⟨"taskdddddddd", "B", "", "d", true, "userbbbbbbbb", "Bob", 0⟩],
         [⟨"userbbbbbbbb", "Bob", "bob@x.com", ["taskaaaaaaaa"],
           0⟩]⟩).2.users =
       ([⟨"userbbbbbbbb", "Bob", "bob@x.com", ["taskaaaaaaaa"],
          0⟩] : List User).filter (fun u => u.id ≠ "userbbbbbbbb") ∧
     ∀ u ∈ (deleteUser "userbbbbbbbb"
        ⟨[⟨"taskaaaaaaaa", "A", "", "d", false, "userbbbbbbbb", "Bob", 0⟩,
          ⟨"taskdddddddd", "B", "", "d", true, "userbbbbbbbb", "Bob", 0⟩],
         [⟨"userbbbbbbbb", "Bob", "bob@x.com", ["taskaaaaaaaa"],
           0⟩]⟩).2.users, u.id ≠ "userbbbbbbbb") :=
  delete_user_unassigns "userbbbbbbbb"
    ⟨[⟨"taskaaaaaaaa", "A", "", "d", false, "userbbbbbbbb", "Bob", 0⟩,
      ⟨"taskdddddddd", "B", "", "d", true, "userbbbbbbbb", "Bob", 0⟩],
     [⟨"userbbbbbbbb", "Bob", "bob@x.com", ["taskaaaaaaaa"], 0⟩]⟩
    ⟨"userbbbbbbbb", "Bob", "bob@x.com", ["taskaaaaaaaa"], 0⟩
    (by decide) (by decide)

/-- C9: POST /users with a non-empty pendingTasks array runs the reverse
synchronization on create as well: every stored task listed in the array
and not completed is reassigned to the new user (assignedUser := new id,
assignedUserName := new name) with no check of a previous assignee (the
mapped condition never inspects assignedUser — last writer wins) and no
drop pass (every unlisted or completed task is untouched); existing user
records are unchanged and the new user is appended. -/
theorem post_user_reverse_sync (uid : String) (now : Nat) (b : UserBody)
    (s : Store)
    (hname : bodyStrPresent b.name = true)
    (hemail : bodyStrPresent b.email = true)
    (hdup : (s.users.find? (fun u =>
        u.email == strLower (b.email.getD ""))).isSome = false)
    (hL : b.pendingTasks.getD [] ≠ []) :
    (postUser uid now b s).1.status = 201 ∧
    (postUser uid now b s).2.tasks =
      s.tasks.map (fun t =>
        if t.id ∈ b.pendingTasks.getD [] ∧ t.completed = false then
          { t with assignedUser := uid, assignedUserName := b.name.getD "" }
        else t) ∧
    (postUser uid now b s).2.users = s.users ++ [mkUserDoc uid now b] := by
  rw [postUser_success uid now b s hname hemail hdup]
  rw [if_pos (show (mkUserDoc uid now b).pendingTasks ≠ [] from hL)]
  exact ⟨rfl, rfl, rfl⟩

theorem post_user_reverse_sync_witness :
    ((postUser "userbbbbbbbb" 1
        ⟨some "Bob", some "bob@x.com", some ["taskaaaaaaaa"]⟩
        ⟨[⟨"taskaaaaaaaa", "A", "", "d", false, "usercccccccc", "Carol", 0⟩],
         [⟨"usercccccccc", "Carol", "carol@x.com", ["taskaaaaaaaa"],
           0⟩]⟩).1.status = 201 ∧
     (postUser "userbbbbbbbb" 1
        ⟨some "Bob", some "bob@x.com", some ["taskaaaaaaaa"]⟩
        ⟨[⟨"taskaaaaaaaa", "A", "", "d", false, "usercccccccc", "Carol", 0⟩],
         [⟨"usercccccccc", "Carol", "carol@x.com", ["taskaaaaaaaa"],
           0⟩]⟩).2.tasks =
       ([⟨"taskaaaaaaaa", "A", "", "d", false, "usercccccccc", "Carol",
          0⟩] : List Task).map (fun t =>
          if t.id ∈ ["taskaaaaaaaa"] ∧ t.completed = false then
            { t with
              assignedUser := "userbbbbbbbb"
              assignedUserName := "Bob" }
          else t) ∧
     (postUser "userbbbbbbbb" 1
        ⟨some "Bob", some "bob@x.com", some ["taskaaaaaaaa"]⟩
        ⟨[⟨"taskaaaaaaaa", "A", "", "d", false, "usercccccccc", "Carol", 0⟩],
         [⟨"usercccccccc", "Carol", "carol@x.com", ["taskaaaaaaaa"],
           0⟩]⟩).2.users =
       [⟨"usercccccccc", "Carol", "carol@x.com", ["taskaaaaaaaa"], 0⟩] ++
         [mkUserDoc "userbbbbbbbb" 1
           ⟨some "Bob", some "bob@x.com", some ["taskaaaaaaaa"]⟩]) :=
  post_user_reverse_sync "userbbbbbbbb" 1
    ⟨some "Bob", some "bob@x.com", some ["taskaaaaaaaa"]⟩
    ⟨[⟨"taskaaaaaaaa", "A", "", "d", false, "usercccccccc", "Carol", 0⟩],
     [⟨"usercccccccc", "Carol", "carol@x.com", ["taskaaaaaaaa"], 0⟩]⟩
    (by decide) (by decide) (by decide) (by decide)

/-- C10: neither the PUT /users/:id passes nor the DELETE /users/:id
clearing pass ever touches a completed task (each query filters on
`completed: false`): every completed stored task is still present,
unchanged — in particular a completed task assigned to a deleted user keeps
the deleted user's id and its old assignedUserName. -/
theorem completed_tasks_untouched (uid : String) (b : UserBody) (s : Store)
    (before : User)
    (hvalid : isValidId uid = true)
    (hname : bodyStrPresent b.name = true)
    (hemail : bodyStrPresent b.email = true)
    (hdup : (s.users.find? (fun u =>
        u.email == strLower (b.email.getD "") && u.id != uid)).isSome = false)
    (hfind : findUser uid s = some before)
    (hnd : (s.tasks.map (fun t => t.id)).Nodup) :
    (∀ t ∈ s.tasks, t.completed = true → t ∈ (putUser uid b s).2.tasks) ∧
    (∀ t ∈ s.tasks, t.completed = true → t ∈ (deleteUser uid s).2.tasks) := by
  constructor
  · intro t ht hc
    rw [putUser_success uid b s before hvalid hname hemail hdup hfind]
    rw [userDropPass_tasks, userSetPass_tasks, saveUser_tasks]
    have h1 : t ∈ s.tasks.map (fun t =>
        if t.id ∈ b.pendingTasks.getD [] ∧ t.completed = false then
          { t with assignedUser := uid, assignedUserName := b.name.getD "" }
        else t) :=
      List.mem_map.mpr ⟨t, ht,
        if_neg (by rintro ⟨_, hcf⟩; rw [hc] at hcf; cases hcf)⟩
    have hnd2 : t.id ∉ dropIdsOf uid (b.pendingTasks.getD [])
        (userSetPass uid (b.name.getD "") (b.pendingTasks.getD [])
          (saveUser
            { before with
              name := b.name.getD ""
              email := strLower (b.email.getD "")
              pendingTasks := b.pendingTasks.getD [] } s)) := by
      intro hd
      obtain ⟨⟨x, hx, hxid, hxa, hxc⟩, _⟩ := (mem_dropIdsOf _ _ _ _).mp hd
      rw [userSetPass_tasks, saveUser_tasks] at hx
      obtain ⟨t0, ht0, rfl⟩ := List.mem_map.mp hx
      have ht0id : t0.id = t.id := by
        by_cases hcond : t0.id ∈ b.pendingTasks.getD [] ∧
            t0.completed = false
        · rw [if_pos hcond] at hxid
          exact hxid
        · rw [if_neg hcond] at hxid
          exact hxid
      have heq : t0 = t := List.inj_on_of_nodup_map hnd ht0 ht ht0id
      subst heq
      by_cases hcond : t0.id ∈ b.pendingTasks.getD [] ∧ t0.completed = false
      · have := hcond.2
        rw [hc] at this
        cases this
      · rw [if_neg hcond] at hxc
        rw [hc] at hxc
        cases hxc
    exact List.mem_map.mpr ⟨t, h1, if_neg hnd2⟩
  · intro t ht hc
    rw [deleteUser_success uid s before hvalid hfind]
    exact List.mem_map.mpr ⟨t, ht,
      if_neg (by rintro ⟨_, hcf⟩; rw [hc] at hcf; cases hcf)⟩

theorem completed_tasks_untouched_witness :
    ((∀ t ∈ ([⟨"taskdddddddd", "B", "", "d", true, "userbbbbbbbb", "Bob",
          0⟩] : List Task),
        t.completed = true →
        t ∈ (putUser "userbbbbbbbb" ⟨some "Bob", some "bob@x.com", some []⟩
          ⟨[⟨"taskdddddddd", "B", "", "d", true, "userbbbbbbbb", "Bob", 0⟩],
           [⟨"userbbbbbbbb", "Bob", "bob@x.com", [], 0⟩]⟩).2.tasks) ∧
     (∀ t ∈ ([⟨"taskdddddddd", "B", "", "d", true, "userbbbbbbbb", "Bob",
          0⟩] : List Task),
        t.completed = true →
        t ∈ (deleteUser "userbbbbbbbb"
          ⟨[⟨"taskdddddddd", "B", "", "d", true, "userbbbbbbbb", "Bob", 0⟩],
           [⟨"userbbbbbbbb", "Bob", "bob@x.com", [], 0⟩]⟩).2.tasks)) :=
  completed_tasks_untouched "userbbbbbbbb"
    ⟨some "Bob", some "bob@x.com", some []⟩
    ⟨[⟨"taskdddddddd", "B", "", "d", true, "userbbbbbbbb", "Bob", 0⟩],
     [⟨"userbbbbbbbb", "Bob", "bob@x.com", [], 0⟩]⟩
    ⟨"userbbbbbbbb", "Bob", "bob@x.com", [], 0⟩
    (by decide) (by decide) (by decide) (by decide) (by decide) (by decide)

theorem list_defaults_note :
    (tasksListQuery (fun _ => true) none 0 none ⟨[], []⟩).length ≤ 100 ∧
    List.Pairwise (fun a b => b.dateCreated ≤ a.dateCreated)
      (tasksListQuery (fun _ => true) none 0 none ⟨[], []⟩) ∧
    usersListQuery (fun _ => true) none 0 none (⟨[], []⟩ : Store) =
      (⟨[], []⟩ : Store).users.filter (fun _ => true) :=
  list_defaults ⟨[], []⟩ (fun _ => true) 0 (fun _ => true)

end TaskApi
